import Mathlib

/-!
Verification development for the text-extractor core (keyword location,
proximity-based number extraction, personal-information extraction, the
extraction engine, the application state machine and the worker/queue
coordinator).

The Python sources are shallowly embedded as executable Lean definitions:
  - strings are Lean `String`/`List Char`; the regular expressions of the
    source are implemented as explicit scanning functions that reproduce the
    leftmost-match and greedy-with-backtracking semantics of Python `re`
    for exactly the patterns the source compiles;
  - Python `\w` (re.UNICODE) is modelled over the character universe the
    program works with (ASCII plus the Cyrillic block U+0400..U+04FF);
    `\s` is modelled as the six ASCII whitespace characters;
  - dataclass `__post_init__` validation that can raise is modelled with
    `Except String`; plain mutation is modelled by explicit state passing;
  - wall-clock fields (`processing_time`, `timestamp`) are omitted from the
    result model, and `deepcopy`/locking are outside the value-level model.
-/

namespace TextExtractor

/-- Python `\w` (word character) over the character universe used by the
program: ASCII letters, ASCII digits, underscore, and the Cyrillic block
U+0400..U+04FF. -/
def isWordChar (c : Char) : Bool :=
  (('A' ≤ c && c ≤ 'Z') || ('a' ≤ c && c ≤ 'z') || c.isDigit || c = '_'
    || (0x400 ≤ c.toNat && c.toNat ≤ 0x4FF))

/-- Word-character test lifted to `Option Char`; a missing character (start or
end of the string) counts as a non-word character, as in `re`. -/
def isWordO : Option Char → Bool
  | none => false
  | some c => isWordChar c

/-- Python `\s` restricted to its six ASCII members. -/
def pyIsSpace (c : Char) : Bool :=
  c = ' ' || c = '\t' || c = '\n' || c = '\r' || c = '\x0b' || c = '\x0c'

/-- Python `str.lower` on the character universe used by the program
(ASCII and the Cyrillic block). -/
def pyToLower (c : Char) : Char :=
  if 'A' ≤ c && c ≤ 'Z' then Char.ofNat (c.toNat + 32)
  else if 0x410 ≤ c.toNat && c.toNat ≤ 0x42F then Char.ofNat (c.toNat + 0x20)
  else if 0x400 ≤ c.toNat && c.toNat ≤ 0x40F then Char.ofNat (c.toNat + 0x50)
  else c

/-- Python `str.strip()` (whitespace from both ends). -/
def pyStripList (l : List Char) : List Char :=
  ((l.dropWhile pyIsSpace).reverse.dropWhile pyIsSpace).reverse

/-- Python `str.strip()` on `String`. -/
def pyStrip (s : String) : String :=
  String.mk (pyStripList s.toList)

/-- First `some` produced by `f` along the list, scanning left to right. -/
def firstSome : List α → (α → Option β) → Option β
  | [], _ => none
  | a :: l, f =>
    match f a with
    | some b => some b
    | none => firstSome l f

/-- The span of leading decimal digits: `(leading digits, remainder)`. -/
def digitSpan (l : List Char) : List Char × List Char :=
  (l.takeWhile Char.isDigit, l.dropWhile Char.isDigit)

/-- Backtracking options of the greedy `(?:,\d{3})*` sub-pattern of
`NumberExtractor.NUMBER_PATTERN` at the head of `l`: the consumed prefix and
the remainder, listed in the order Python `re` tries them (maximal repetition
count first, down to zero repetitions). -/
def commaOpts : List Char → List (List Char × List Char)
  | ',' :: d1 :: d2 :: d3 :: rest =>
    if d1.isDigit && d2.isDigit && d3.isDigit then
      ((commaOpts rest).map fun p => (',' :: d1 :: d2 :: d3 :: p.1, p.2))
        ++ [([], ',' :: d1 :: d2 :: d3 :: rest)]
    else [([], ',' :: d1 :: d2 :: d3 :: rest)]
  | l => [([], l)]

/-- Backtracking options of the greedy `(?:\.\d+)?` sub-pattern at the head of
`l`, in the order Python `re` tries them (group present first). `\d+` is taken
maximal only: dropping digits would put a digit (a word character) right after
the match, so the trailing `\b` of the pattern could never be restored. -/
def decOpts : List Char → List (List Char × List Char)
  | '.' :: rest =>
    let (ds, r) := digitSpan rest
    if ds.isEmpty then [([], '.' :: rest)]
    else [('.' :: ds, r), ([], '.' :: rest)]
  | l => [([], l)]

/-- The trailing `\b` of `NUMBER_PATTERN`: every match ends in a digit, so the
boundary holds iff the next character is absent or not a word character. -/
def numTailBoundary : List Char → Bool
  | [] => true
  | c :: _ => !isWordChar c

/-- One attempt of `\d{1,3}` taking `k` of the leading digits `ds`, followed by
the comma groups, the optional decimal part and the trailing `\b`, with
Python's backtracking order. -/
def tryWithK (ds rest : List Char) (k : Nat) : Option (List Char) :=
  let pre := ds.take k
  let rem := ds.drop k ++ rest
  firstSome (commaOpts rem) fun cp =>
    firstSome (decOpts cp.2) fun dp =>
      if numTailBoundary dp.2 then some (pre ++ cp.1 ++ dp.1) else none

/-- Match of `\d{1,3}(?:,\d{3})*(?:\.\d+)?\b` anchored at the head of `l`
(the leading `\b` is checked by the caller), returning the matched text.
`\d{1,3}` is greedy, so `k` runs from `min 3 (number of leading digits)`
down to `1`. -/
def tryNumberAt (l : List Char) : Option (List Char) :=
  let (ds, rest) := digitSpan l
  if ds.isEmpty then none
  else
    let k0 := min 3 ds.length
    firstSome ((List.range k0).map fun j => k0 - j) (tryWithK ds rest)

/-- Scan of `NUMBER_PATTERN` over a string: positions are tried left to right;
`prevWord` says whether the character before the current position is a word
character (false at the start of the string, matching a freshly sliced
Python string). -/
def searchNumAux (prevWord : Bool) : List Char → Option (List Char)
  | [] => none
  | c :: rest =>
    if !prevWord && c.isDigit then
      match tryNumberAt (c :: rest) with
      | some v => some v
      | none => searchNumAux (isWordChar c) rest
    else searchNumAux (isWordChar c) rest

/-- `NUMBER_PATTERN.search` on a fresh string: the first (leftmost) match of
`\b\d{1,3}(?:,\d{3})*(?:\.\d+)?\b`. -/
def searchNumber (l : List Char) : Option (List Char) :=
  searchNumAux false l

/-- `re.match(r'^\d{1,3}(?:,\d{3})+$', value)` as a whole-string test: one or
more `,ddd` groups after the leading digits, to the end. -/
def thousandsGroups : List Char → Bool
  | ',' :: d1 :: d2 :: d3 :: rest =>
    d1.isDigit && d2.isDigit && d3.isDigit && (rest.isEmpty || thousandsGroups rest)
  | _ => false

/-- The strict thousands test of `NumberExtractor.extract_numbers`:
`^\d{1,3}(?:,\d{3})+$`. -/
def strictThousands (value : String) : Bool :=
  let (ds, rest) := digitSpan value.toList
  1 ≤ ds.length && ds.length ≤ 3 && thousandsGroups rest

/-- Word-boundary test of `\bK\b` (case-insensitive literal `K`) at the head of
`suffix`, with `prev` the character just before the current position. For the
degenerate empty keyword the two `\b` collapse to one boundary test. -/
def kwMatchAtSuffix (kw : List Char) (prev : Option Char) (suffix : List Char) : Bool :=
  if kw.isEmpty then Bool.xor (isWordO prev) (isWordO suffix.head?)
  else
    ((suffix.take kw.length).map pyToLower == kw.map pyToLower)
      && Bool.xor (isWordO prev) (isWordO suffix.head?)
      && Bool.xor (isWordO (suffix.get? (kw.length - 1))) (isWordO (suffix.get? kw.length))

/-- Scan for `\bK\b` (IGNORECASE): positions left to right, returning the
start index of the first match. -/
def findKeywordIdxAux (kw : List Char) (prev : Option Char) (suffix : List Char) (i : Nat) :
    Option Nat :=
  if kwMatchAtSuffix kw prev suffix then some i
  else
    match suffix with
    | [] => none
    | c :: rest => findKeywordIdxAux kw (some c) rest (i + 1)

/-- `re.compile(r'\b' + re.escape(kw) + r'\b', re.IGNORECASE).search(line)`:
index of the first match of the escaped (hence literal) keyword. -/
def findKeywordIdx (kw line : List Char) : Option Nat :=
  findKeywordIdxAux kw none line 0

/-! ## Data model (src/models, src/parsers/base.py, src/extractors/base.py) -/

/-- `parsers.base.PageContent`: text content of a single page. The
`lines`-derived-from-`text` fallback of `__post_init__` is not needed by the
claims; pages are taken as the parser hands them over. -/
structure PageContent where
  page_number : Nat
  text : String
  lines : List String
deriving DecidableEq, Repr

/-- `extractors.base.KeywordMatch` (a plain dataclass; its `__post_init__`
validation is `mkKeywordMatch`). -/
structure KeywordMatch where
  keyword : String
  page_number : Nat
  line_number : Nat
  line_text : String
deriving DecidableEq, Repr

/-- `KeywordMatch.__post_init__`: validation that can raise `ValueError`. -/
def mkKeywordMatch (keyword : String) (page_number line_number : Nat)
    (line_text : String) : Except String KeywordMatch :=
  if page_number < 1 then .error "Page number must be >= 1"
  else if line_number < 1 then .error "Line number must be >= 1"
  else if keyword = "" then .error "Keyword must be non-empty"
  else if line_text = "" then .error "Line text must be non-empty"
  else .ok ⟨keyword, page_number, line_number, line_text⟩

/-- `models.extraction_match.ExtractionMatch`. `status` is kept as a string as
in the source; `mkExtractionMatch` is its validating `__post_init__`. -/
structure ExtractionMatch where
  keyword : String
  value : String
  page_number : Nat
  line_number : Option Nat
  status : String
  warning : Option String
deriving DecidableEq, Repr

/-- `ExtractionMatch.__post_init__`: validates status, page number, line
number and keyword, and rewrites `value` to `'Not found'` for a `not_found`
status unless the value is already `'Not found'` or the empty string (`None`
cannot occur for a field typed `str` in the embedding). -/
def mkExtractionMatch (keyword value : String) (page_number : Nat)
    (line_number : Option Nat) (status : String) (warning : Option String) :
    Except String ExtractionMatch :=
  if status ≠ "found" && status ≠ "not_found" && status ≠ "ambiguous" then
    .error ("Invalid status: " ++ status)
  else if page_number < 1 then .error "Page number must be >= 1"
  else if line_number == some 0 then
    .error "Line number must be >= 1"
  else if keyword = "" || pyStrip keyword = "" then .error "Keyword must be non-empty"
  else if status = "not_found" && value ≠ "Not found" && value ≠ "" then
    .ok ⟨keyword, "Not found", page_number, line_number, status, warning⟩
  else .ok ⟨keyword, value, page_number, line_number, status, warning⟩

/-- `models.personal_information.PersonalInformation`. -/
structure PersonalInformation where
  first_name : Option String
  last_name : Option String
  middle_name : Option String
  id_number_prefix : Option String
  age : Option Nat
  character_set : String
  extraction_page : Option Nat
  is_complete : Bool
deriving DecidableEq, Repr

/-- Python truthiness of an optional string (`None` and `''` are falsy). -/
def truthyS : Option String → Bool
  | none => false
  | some s => !(s = "")

/-- `PersonalInformation(...)` construction followed by `__post_init__`, which
always overwrites the passed `is_complete` with
`all([first_name is not None, last_name is not None, id_number_prefix is not
None])`. The `ValueError` checks of `__post_init__` cannot fire for the values
the extractor builds from pages with positive page numbers, and are not
modelled. -/
def mkPersonalInformation (first_name last_name middle_name : Option String)
    (idp : Option String) (age : Option Nat) (character_set : String)
    (extraction_page : Option Nat) : PersonalInformation :=
  ⟨first_name, last_name, middle_name, idp, age, character_set, extraction_page,
    first_name.isSome && last_name.isSome && idp.isSome⟩

/-- `PersonalInformation.empty()`. -/
def PersonalInformation.empty : PersonalInformation :=
  ⟨none, none, none, none, none, "unknown", none, false⟩

/-- `models.document.DocumentState`. -/
inductive DocumentState
  | unselected | selected | validating | valid | invalid
deriving DecidableEq, Repr

/-- `models.document.Document` (the filesystem-touching helpers are out of the
embedding's scope; `__post_init__`'s path/type validation is not needed by the
claims, which only read `is_valid` and `error_message`). -/
structure Document where
  file_path : String
  filename : String
  file_type : String
  page_count : Nat
  is_valid : Bool
  error_message : Option String
  state : DocumentState
deriving DecidableEq, Repr

/-- `models.keyword.Keyword`. -/
structure Keyword where
  text : String
  normalized : String
  is_historical : Bool
  is_active : Bool
deriving DecidableEq, Repr

/-- One structured error of `ExtractionResults.errors` (`context` is carried
as opaque text; the claims only read the type and message). -/
structure EngineError where
  etype : String
  message : String
deriving DecidableEq, Repr

/-- `models.extraction_results.ExtractionResults` (wall-clock fields
`processing_time` and `timestamp` omitted). -/
structure ExtractionResults where
  document : Document
  personal_info : PersonalInformation
  match_list : List ExtractionMatch
  errors : List EngineError
  warnings : List String
deriving DecidableEq, Repr

/-- `ExtractionResults.has_errors()`. -/
def ExtractionResults.has_errors (r : ExtractionResults) : Bool :=
  r.errors.length > 0

/-- `models.batch_extraction_results.BatchExtractionResults` (timestamp
omitted). -/
structure BatchExtractionResults where
  results : List ExtractionResults
  keywords : List String
  output_path : Option String
  warnings : List String
deriving DecidableEq, Repr

/-- `BatchExtractionResults.has_results`. -/
def BatchExtractionResults.has_results (b : BatchExtractionResults) : Bool :=
  b.results.length > 0

/-- `BatchExtractionResults.has_warnings`. -/
def BatchExtractionResults.has_warnings (b : BatchExtractionResults) : Bool :=
  b.warnings.length > 0

/-- The `Union[ExtractionResults, BatchExtractionResults]` of
`ApplicationState.extraction_results`. -/
inductive ResultsUnion
  | single (r : ExtractionResults)
  | batch (b : BatchExtractionResults)
deriving DecidableEq, Repr

/-- `models.application_state.ProcessingStatus`. -/
inductive ProcessingStatus
  | idle | file_selected | ready | processing | complete | error | partial_success
deriving DecidableEq, Repr

/-- `models.application_state.ApplicationState`. -/
structure ApplicationState where
  current_documents : List Document
  active_keywords : List Keyword
  processing_status : ProcessingStatus
  extraction_results : Option ResultsUnion
  error_messages : List String
  is_processing : Bool
deriving DecidableEq, Repr

/-- `ApplicationState()` default construction. -/
def ApplicationState.initial : ApplicationState :=
  ⟨[], [], .idle, none, [], false⟩

/-- `ApplicationState.can_start_extraction`. -/
def ApplicationState.can_start_extraction (s : ApplicationState) : Bool :=
  (s.current_documents.length > 0 && s.current_documents.all fun d => d.is_valid)
    && s.active_keywords.length > 0
    && !s.is_processing
    && (s.processing_status == .ready || s.processing_status == .complete
        || s.processing_status == .error || s.processing_status == .partial_success)

/-- `ApplicationState.start_processing`. -/
def ApplicationState.start_processing (s : ApplicationState) : ApplicationState :=
  { s with is_processing := true, processing_status := .processing,
           error_messages := [], extraction_results := none }

/-- `ApplicationState.complete_processing`. -/
def ApplicationState.complete_processing (s : ApplicationState)
    (results : ResultsUnion) : ApplicationState :=
  let status :=
    match results with
    | .batch b =>
      if b.has_warnings && !b.has_results then ProcessingStatus.error
      else if b.has_warnings then ProcessingStatus.partial_success
      else ProcessingStatus.complete
    | .single r =>
      if r.has_errors then
        if r.match_list.any (fun m => m.status == "found") then
          ProcessingStatus.partial_success
        else ProcessingStatus.error
      else ProcessingStatus.complete
  { s with is_processing := false, extraction_results := some results,
           processing_status := status }

/-- `ApplicationState.fail_processing`. -/
def ApplicationState.fail_processing (s : ApplicationState)
    (error_message : String) : ApplicationState :=
  { s with is_processing := false, processing_status := .error,
           error_messages := s.error_messages ++ [error_message] }

/-! ## NumberExtractor (src/extractors/number_extractor.py) -/

/-- The thousands-separator warning text built by `extract_numbers`. -/
def thousandsWarning (value : String) : String :=
  "Number '" ++ value ++ "' interpreted as thousands separator. " ++
    "If this is incorrect, please review the document."

/-- The unusual-format warning text built by `extract_numbers`. -/
def unusualWarning (value : String) : String :=
  "Number '" ++ value ++ "' has unusual format and may be ambiguous"

/-- The status/warning classification of a found value in `extract_numbers`:
a comma with no decimal point is ambiguous; the strict thousands pattern picks
which warning is emitted. -/
def classifyValue (value : String) : String × Option String :=
  if value.toList.contains ',' && !value.toList.contains '.' then
    if strictThousands value then ("ambiguous", some (thousandsWarning value))
    else ("ambiguous", some (unusualWarning value))
  else ("found", none)

/-- The body of the `for kw_match in keyword_matches` loop of
`NumberExtractor.extract_numbers`: re-locate the keyword in the line, search
the text after it for the first number, classify, and construct the
`ExtractionMatch` (whose `__post_init__` can raise). -/
def NumberExtractor.extractOne (km : KeywordMatch) : Except String ExtractionMatch :=
  match findKeywordIdx km.keyword.toList km.line_text.toList with
  | none =>
    mkExtractionMatch km.keyword "Not found" km.page_number (some km.line_number)
      "not_found" none
  | some idx =>
    let keyword_end := idx + km.keyword.toList.length
    let text_after_keyword := km.line_text.toList.drop keyword_end
    match searchNumber text_after_keyword with
    | some v =>
      let value := String.mk v
      let sw := classifyValue value
      mkExtractionMatch km.keyword value km.page_number (some km.line_number) sw.1 sw.2
    | none =>
      mkExtractionMatch km.keyword "Not found" km.page_number (some km.line_number)
        "not_found" none

/-- `NumberExtractor.extract_numbers`: one `ExtractionMatch` per input
`KeywordMatch`, in order; a `ValueError` from any construction aborts the
whole call (the caller then keeps none of the matches). -/
def NumberExtractor.extract_numbers : List KeywordMatch → Except String (List ExtractionMatch)
  | [] => .ok []
  | km :: rest => do
    let m ← NumberExtractor.extractOne km
    let ms ← NumberExtractor.extract_numbers rest
    .ok (m :: ms)

/-! ## KeywordMatcher (src/extractors/keyword_matcher.py) -/

/-- The inner `for line_num, line_text in enumerate(page.lines, start=1)` loop
of `find_keywords` for one (normalized) keyword on one page. -/
def KeywordMatcher.scanLines (kn : String) (pnum : Nat) :
    Nat → List String → Except String (List KeywordMatch)
  | _, [] => .ok []
  | n, t :: rest =>
    if (findKeywordIdx kn.toList t.toList).isSome then do
      let m ← mkKeywordMatch kn pnum n t
      let ms ← KeywordMatcher.scanLines kn pnum (n + 1) rest
      .ok (m :: ms)
    else KeywordMatcher.scanLines kn pnum (n + 1) rest

/-- The `for page in pages` loop of `find_keywords` for one keyword. -/
def KeywordMatcher.scanPages (kn : String) :
    List PageContent → Except String (List KeywordMatch)
  | [] => .ok []
  | p :: ps => do
    let a ← KeywordMatcher.scanLines kn p.page_number 1 p.lines
    let b ← KeywordMatcher.scanPages kn ps
    .ok (a ++ b)

/-- `KeywordMatcher.find_keywords`: all keyword occurrences, outer loop over
keywords in caller order, each keyword normalized with `strip()`; a
`ValueError` from `KeywordMatch.__post_init__` aborts the whole call. -/
def KeywordMatcher.find_keywords (pages : List PageContent) (keywords : List String) :
    Except String (List KeywordMatch) :=
  match keywords with
  | [] => .ok []
  | k :: ks => do
    let a ← KeywordMatcher.scanPages (pyStrip k) pages
    let b ← KeywordMatcher.find_keywords pages ks
    .ok (a ++ b)

/-! ## PersonalInfoExtractor (src/extractors/personal_info_extractor.py) -/

/-- The capture class `[А-Яа-яA-Za-z\s\-]` of the name patterns. -/
def nameClassChar (c : Char) : Bool :=
  (0x410 ≤ c.toNat && c.toNat ≤ 0x44F) || ('A' ≤ c && c ≤ 'Z')
    || ('a' ≤ c && c ≤ 'z') || pyIsSpace c || c = '-'

/-- Scan a string position by position (leftmost match wins), applying an
anchored matcher at each suffix. -/
def scanFirst (f : List Char → Option α) : List Char → Option α
  | [] => f []
  | c :: rest =>
    match f (c :: rest) with
    | some r => some r
    | none => scanFirst f rest

/-- Anchored match of `LABEL:\s*([А-Яа-яA-Za-z\s\-]+)` at the head of `l`.
The capture class contains `\s`, so when the greedy `\s*` leaves no class
character the engine backtracks one whitespace character into the capture;
the capture is then that single whitespace character. -/
def tryLabelCaptureAt (label : List Char) (l : List Char) : Option (List Char) :=
  if (l.take label.length == label) && (l.get? label.length == some ':') then
    let rest := l.drop (label.length + 1)
    let ws := rest.takeWhile pyIsSpace
    let after := rest.drop ws.length
    let run := after.takeWhile nameClassChar
    if !run.isEmpty then some run
    else
      match ws.reverse with
      | c :: _ => some [c]
      | [] => none
  else none

/-- `re.search` of one compiled name pattern `(?:L1|L2|...):\s*([class]+)`:
alternatives are tried in order at each position, leftmost position first. -/
def searchLabelCapture (labels : List (List Char)) (text : List Char) :
    Option (List Char) :=
  scanFirst (fun l => firstSome labels fun lb => tryLabelCaptureAt lb l) text

/-- Anchored match of `LABEL:\s*(\d{4})\d*` at the head of `l` (the ID
patterns): the first four of at least four digits after the whitespace. -/
def tryIdCaptureAt (label : List Char) (l : List Char) : Option (List Char) :=
  if (l.take label.length == label) && (l.get? label.length == some ':') then
    let rest := l.drop (label.length + 1)
    let after := rest.dropWhile pyIsSpace
    let ds := after.takeWhile Char.isDigit
    if 4 ≤ ds.length then some (ds.take 4) else none
  else none

/-- `re.search` of one compiled ID pattern. -/
def searchIdCapture (labels : List (List Char)) (text : List Char) :
    Option (List Char) :=
  scanFirst (fun l => firstSome labels fun lb => tryIdCaptureAt lb l) text

/-- Digit list to number (at most three digits here). -/
def natOfDigits (l : List Char) : Nat :=
  l.foldl (fun n c => 10 * n + (c.toNat - 48)) 0

/-- Anchored match of `AGE_PATTERN = ,\s*(\d{1,3})(?:\s|$)` at the head of
`l`: after the comma and whitespace there must be one to three digits followed
by whitespace or the end of the string. -/
def tryAgeAt : List Char → Option Nat
  | ',' :: rest =>
    let after := rest.dropWhile pyIsSpace
    let ds := after.takeWhile Char.isDigit
    let nxt := (after.drop ds.length).head?
    if 1 ≤ ds.length && ds.length ≤ 3
        && (match nxt with | none => true | some c => pyIsSpace c) then
      some (natOfDigits ds)
    else none
  | _ => none

/-- `FIRST_NAME_PATTERNS[0]` label alternatives. -/
def FIRST_NAME_LABELS1 : List (List Char) :=
  ["First Name".toList, "Име".toList, "Name".toList, "Имя".toList]

/-- `FIRST_NAME_PATTERNS[1]` label alternatives. -/
def FIRST_NAME_LABELS2 : List (List Char) :=
  ["Given Name".toList, "Личное имя".toList]

/-- `LAST_NAME_PATTERNS[0]` label alternatives. -/
def LAST_NAME_LABELS1 : List (List Char) :=
  ["Last Name".toList, "Фамилия".toList, "Surname".toList, "Фамілія".toList]

/-- `LAST_NAME_PATTERNS[1]` label alternatives. -/
def LAST_NAME_LABELS2 : List (List Char) :=
  ["Family Name".toList]

/-- `MIDDLE_NAME_PATTERNS[0]` label alternatives. -/
def MIDDLE_NAME_LABELS : List (List Char) :=
  ["Middle Name".toList, "Отчество".toList, "Patronymic".toList, "По батькові".toList]

/-- `ID_PATTERNS[0]` label alternatives. -/
def ID_LABELS1 : List (List Char) :=
  ["ID".toList, "ЕГН".toList, "ID Number".toList, "Номер".toList]

/-- `ID_PATTERNS[1]` label alternatives. -/
def ID_LABELS2 : List (List Char) :=
  ["Identification".toList, "Identifier".toList]

/-- `_extract_first_name` restricted to a single page: first pattern list in
order, capture stripped. -/
def PersonalInfoExtractor.extract_first_name (page : PageContent) : Option String :=
  match searchLabelCapture FIRST_NAME_LABELS1 page.text.toList with
  | some cap => some (pyStrip (String.mk cap))
  | none =>
    match searchLabelCapture FIRST_NAME_LABELS2 page.text.toList with
    | some cap => some (pyStrip (String.mk cap))
    | none => none

/-- `_extract_last_name` restricted to a single page. -/
def PersonalInfoExtractor.extract_last_name (page : PageContent) : Option String :=
  match searchLabelCapture LAST_NAME_LABELS1 page.text.toList with
  | some cap => some (pyStrip (String.mk cap))
  | none =>
    match searchLabelCapture LAST_NAME_LABELS2 page.text.toList with
    | some cap => some (pyStrip (String.mk cap))
    | none => none

/-- `_extract_middle_name` restricted to a single page. -/
def PersonalInfoExtractor.extract_middle_name (page : PageContent) : Option String :=
  match searchLabelCapture MIDDLE_NAME_LABELS page.text.toList with
  | some cap => some (pyStrip (String.mk cap))
  | none => none

/-- `_extract_id_number` restricted to a single page. -/
def PersonalInfoExtractor.extract_id_number (page : PageContent) : Option String :=
  match searchIdCapture ID_LABELS1 page.text.toList with
  | some cap => some (String.mk cap)
  | none =>
    match searchIdCapture ID_LABELS2 page.text.toList with
    | some cap => some (String.mk cap)
    | none => none

/-- `_extract_age` restricted to a single page: the first `AGE_PATTERN` match
of the page, kept only when in the range 0..150. -/
def PersonalInfoExtractor.extract_age (page : PageContent) : Option Nat :=
  match scanFirst tryAgeAt page.text.toList with
  | some a => if a ≤ 150 then some a else none
  | none => none

/-- `_detect_character_set`. -/
def detectCharacterSet (text : String) : String :=
  let has_cyrillic := text.toList.any fun c => 0x410 ≤ c.toNat && c.toNat ≤ 0x44F
  let has_latin := text.toList.any fun c => ('A' ≤ c && c ≤ 'Z') || ('a' ≤ c && c ≤ 'z')
  if has_cyrillic && has_latin then "mixed"
  else if has_cyrillic then "cyrillic"
  else if has_latin then "latin"
  else "unknown"

/-- The `f"{first_name or ''} {middle_name or ''} {last_name or ''}"` string
(first, middle, last, space-joined; falsy parts become empty). -/
def combinedNames (fn mn ln : Option String) : String :=
  (fn.getD "") ++ " " ++ (mn.getD "") ++ " " ++ (ln.getD "")

/-- `PersonalInfoExtractor._extract_from_page`: all fields from one page;
`extraction_page` is set when a first name, last name or ID was found (Python
truthiness); `is_complete` is fixed by `__post_init__`. -/
def PersonalInfoExtractor.extract_from_page (page : PageContent) : PersonalInformation :=
  let first_name := PersonalInfoExtractor.extract_first_name page
  let last_name := PersonalInfoExtractor.extract_last_name page
  let middle_name := PersonalInfoExtractor.extract_middle_name page
  let idp := PersonalInfoExtractor.extract_id_number page
  let age := PersonalInfoExtractor.extract_age page
  let character_set :=
    if truthyS first_name || truthyS last_name || truthyS middle_name then
      detectCharacterSet (combinedNames first_name middle_name last_name)
    else "unknown"
  mkPersonalInformation first_name last_name middle_name idp age character_set
    (if truthyS first_name || truthyS last_name || truthyS idp then
      some page.page_number
    else none)

/-- One iteration of the `for page in pages[1:]` loop of
`extract_personal_info`: each still-absent field (`is None`) is filled when
the page yields a truthy value. The first-name branch assigns
`extraction_page` unconditionally; the other branches only when it is still
`None`. The `is_complete` flag is not touched (dataclass attribute assignment
does not re-run `__post_init__`). -/
def PersonalInfoExtractor.scanPage (r : PersonalInformation) (page : PageContent) :
    PersonalInformation :=
  let r :=
    if r.first_name == none then
      match PersonalInfoExtractor.extract_first_name page with
      | some v =>
        if v ≠ "" then
          { r with first_name := some v, extraction_page := some page.page_number }
        else r
      | none => r
    else r
  let r :=
    if r.last_name == none then
      match PersonalInfoExtractor.extract_last_name page with
      | some v =>
        if v ≠ "" then
          { r with last_name := some v,
                   extraction_page :=
                     if r.extraction_page == none then some page.page_number
                     else r.extraction_page }
        else r
      | none => r
    else r
  let r :=
    if r.middle_name == none then
      match PersonalInfoExtractor.extract_middle_name page with
      | some v =>
        if v ≠ "" then
          { r with middle_name := some v,
                   extraction_page :=
                     if r.extraction_page == none then some page.page_number
                     else r.extraction_page }
        else r
      | none => r
    else r
  let r :=
    if r.id_number_prefix == none then
      match PersonalInfoExtractor.extract_id_number page with
      | some v =>
        if v ≠ "" then
          { r with id_number_prefix := some v,
                   extraction_page :=
                     if r.extraction_page == none then some page.page_number
                     else r.extraction_page }
        else r
      | none => r
    else r
  let r :=
    if r.age == none then
      match PersonalInfoExtractor.extract_age page with
      | some v =>
        if v ≠ 0 then
          { r with age := some v,
                   extraction_page :=
                     if r.extraction_page == none then some page.page_number
                     else r.extraction_page }
        else r
      | none => r
    else r
  r

/-- The `for page in pages[1:]` loop with its `if result.is_complete: break`
(the flag is the one computed for the first page and is never reassigned
inside the loop). -/
def PersonalInfoExtractor.scanRemaining (r : PersonalInformation) :
    List PageContent → PersonalInformation
  | [] => r
  | p :: ps =>
    let r2 := PersonalInfoExtractor.scanPage r p
    if r2.is_complete then r2 else PersonalInfoExtractor.scanRemaining r2 ps

/-- `PersonalInfoExtractor.extract_personal_info`. -/
def PersonalInfoExtractor.extract_personal_info (pages : List PageContent) :
    PersonalInformation :=
  match pages with
  | [] => PersonalInformation.empty
  | p0 :: rest =>
    let r0 := PersonalInfoExtractor.extract_from_page p0
    let r1 :=
      if !r0.is_complete && rest.length ≥ 1 then
        PersonalInfoExtractor.scanRemaining r0 rest
      else r0
    let r2 :=
      if truthyS r1.first_name || truthyS r1.last_name || truthyS r1.middle_name then
        { r1 with character_set :=
            detectCharacterSet (combinedNames r1.first_name r1.middle_name r1.last_name) }
      else r1
    { r2 with is_complete :=
        r2.first_name.isSome && r2.last_name.isSome && r2.id_number_prefix.isSome }

/-! ## ExtractionEngine (src/extractors/extraction_engine.py) -/

/-- The placeholder document the engine creates when called without one (the
working-directory-dependent path is abstracted to `"unknown"`). -/
def placeholderDocument (page_count : Nat) : Document :=
  ⟨"unknown", "unknown", "pdf", page_count, true, none, .unselected⟩

/-- The grouping-and-reordering loop of step 2 of `ExtractionEngine.extract`:
`matches_by_keyword[k]` is the (order-preserving) sublist of extraction
matches whose keyword equals `k`; for each input keyword, its group is
appended (each warning propagated) or one `not_found` match is synthesized at
page 1. A `ValueError` from the synthesized construction aborts the loop but
keeps the matches and warnings appended so far (the Python loop mutates the
shared results object). Returns (matches, warnings, error). -/
def engineGroupLoop (ems : List ExtractionMatch) :
    List String → List ExtractionMatch × List String × Option String
  | [] => ([], [], none)
  | k :: ks =>
    let group := ems.filter fun m => m.keyword == k
    if group.isEmpty then
      match mkExtractionMatch k "Not found" 1 none "not_found" none with
      | .error e => ([], [], some e)
      | .ok m =>
        let rec_ := engineGroupLoop ems ks
        (m :: rec_.1, rec_.2.1, rec_.2.2)
    else
      let rec_ := engineGroupLoop ems ks
      (group ++ rec_.1, (group.filterMap fun m => m.warning) ++ rec_.2.1, rec_.2.2)

/-- The keyword matches available to stage 2: stage 1's result, or the empty
list when stage 1 failed (`keyword_matches = []` is never reassigned). -/
def engineStage1Matches (kmO : Except String (List KeywordMatch)) : List KeywordMatch :=
  match kmO with
  | .ok kms => kms
  | .error _ => []

/-- `ExtractionEngine.extract` with the outcome of each guarded region as a
parameter, mirroring the engine's `try/except` structure (lines 66..148):
 * `kmO`: outcome of `keyword_matcher.find_keywords` (stage 1); on failure a
   `keyword_matching_error` is recorded and the match list stays empty;
 * `neO`: outcome of `number_extractor.extract_numbers` on stage 1's matches
   (stage 2); on failure a `number_extraction_error` is recorded; on success
   the grouping loop runs, whose own failure is recorded the same way while
   the matches appended before the failure survive;
 * `piO`: outcome of `personal_info_extractor.extract_personal_info`
   (stage 3); on failure a `personal_info_extraction_error` is recorded and
   the empty `PersonalInformation` is substituted; on success the
   missing-first-name and missing-ID warnings are added (the last-name warning
   is disabled in the source);
 * `postO`: any exception raised inside the outer `try` but outside the three
   stage bodies (for instance inside a stage's `except` handler); it is caught
   by the engine-level fallback and recorded as a generic `extraction_error`.
The engine itself never fails: it always returns results. -/
def engineExtractWith (keywords : List String) (doc : Document)
    (kmO : Except String (List KeywordMatch))
    (neO : List KeywordMatch → Except String (List ExtractionMatch))
    (piO : Except String PersonalInformation)
    (postO : Except String Unit) : ExtractionResults :=
  let kms := engineStage1Matches kmO
  let st1 :=
    match kmO with
    | .ok _ => ([] : List EngineError)
    | .error e =>
      [(⟨"keyword_matching_error", "Failed to match keywords: " ++ e⟩ : EngineError)]
  let st2 :=
    match neO kms with
    | .error e =>
      (([] : List ExtractionMatch), ([] : List String),
        [(⟨"number_extraction_error", "Failed to extract numbers: " ++ e⟩ : EngineError)])
    | .ok ems =>
      let g := engineGroupLoop ems keywords
      (g.1, g.2.1,
        match g.2.2 with
        | some e =>
          [(⟨"number_extraction_error", "Failed to extract numbers: " ++ e⟩ : EngineError)]
        | none => ([] : List EngineError))
  let st3 :=
    match piO with
    | .ok p =>
      (p, (if !truthyS p.first_name then ["First name not found in document"] else [])
            ++ (if !truthyS p.id_number_prefix then ["ID number not found in document"] else []),
        ([] : List EngineError))
    | .error e =>
      (PersonalInformation.empty, ([] : List String),
        [(⟨"personal_info_extraction_error",
          "Failed to extract personal information: " ++ e⟩ : EngineError)])
  let st4 :=
    match postO with
    | .ok _ => ([] : List EngineError)
    | .error e =>
      [(⟨"extraction_error", "Unexpected error during extraction: " ++ e⟩ : EngineError)]
  { document := doc
    personal_info := st3.1
    match_list := st2.1
    errors := st1 ++ st2.2.2 ++ st3.2.2 ++ st4
    warnings := st2.2.1 ++ st3.2.1 }

/-- `ExtractionEngine.extract` proper: the three stages are the real
extractors (in the embedding `extract_personal_info` is total, and nothing
else inside the outer `try` can raise, so `piO` and `postO` are `ok`). -/
def ExtractionEngine.extract (pages : List PageContent) (keywords : List String)
    (document : Option Document) : ExtractionResults :=
  engineExtractWith keywords (document.getD (placeholderDocument pages.length))
    (KeywordMatcher.find_keywords pages keywords)
    NumberExtractor.extract_numbers
    (.ok (PersonalInfoExtractor.extract_personal_info pages))
    (.ok ())

/-! ## ThreadCoordinator (src/controllers/thread_coordinator.py)

The coordinator is modelled as a transition system on its observable state
(the running flag and the FIFO message queue). `start_extraction` is one
atomic transition (in the source it runs on the interactive thread while the
flag and queue are only otherwise touched by the worker wrapper); the wrapper
body, which runs when the launched function finishes with the given outcome,
is a second transition. -/

/-- A queue message: `{'type': 'progress'|'complete'|'error', ...}`. -/
inductive CoordMessage
  | progress (message : String)
  | complete (results : ExtractionResults)
  | error (message : String)
deriving DecidableEq, Repr

/-- The observable state of a `ThreadCoordinator`. -/
structure ThreadCoordinator where
  is_running : Bool
  message_queue : List CoordMessage
deriving DecidableEq, Repr

/-- `ThreadCoordinator.send_progress`. -/
def ThreadCoordinator.send_progress (c : ThreadCoordinator) (message : String) :
    ThreadCoordinator :=
  { c with message_queue := c.message_queue ++ [.progress message] }

/-- `ThreadCoordinator.send_complete`. -/
def ThreadCoordinator.send_complete (c : ThreadCoordinator) (results : ExtractionResults) :
    ThreadCoordinator :=
  { c with message_queue := c.message_queue ++ [.complete results] }

/-- `ThreadCoordinator.send_error`. -/
def ThreadCoordinator.send_error (c : ThreadCoordinator) (error_message : String) :
    ThreadCoordinator :=
  { c with message_queue := c.message_queue ++ [.error error_message] }

/-- `ThreadCoordinator._clear_queue`. -/
def ThreadCoordinator.clear_queue (c : ThreadCoordinator) : ThreadCoordinator :=
  { c with message_queue := [] }

/-- `ThreadCoordinator.start_extraction`: refuse (with an immediate `error`
message) when a worker is already running, otherwise clear stale messages, set
the running flag and launch the worker. The returned boolean says whether a
worker thread was spawned. -/
def ThreadCoordinator.start_extraction (c : ThreadCoordinator) :
    ThreadCoordinator × Bool :=
  if c.is_running then (c.send_error "Extraction already in progress", false)
  else ({ c.clear_queue with is_running := true }, true)

/-- The terminal message `_worker_wrapper` enqueues for a finished job. -/
def terminalMessage : Except String ExtractionResults → CoordMessage
  | .ok results => .complete results
  | .error e => .error e

/-- `ThreadCoordinator._worker_wrapper` after `extraction_func` finished with
`outcome`: enqueue `complete` on success or `error` on an exception, and clear
the running flag in the `finally` block in both cases. -/
def ThreadCoordinator.worker_wrapper (c : ThreadCoordinator)
    (outcome : Except String ExtractionResults) : ThreadCoordinator :=
  let c2 :=
    match outcome with
    | .ok results => c.send_complete results
    | .error e => c.send_error e
  { c2 with is_running := false }

/-! ## Derived notions used to state claims about the engine -/

/-- The `ExtractionMatch` value `NumberExtractor.extractOne` constructs
(identical to `extractOne` whenever the `__post_init__` validation passes,
which it does for every match the keyword matcher itself emits). -/
def extractOneData (km : KeywordMatch) : ExtractionMatch :=
  match findKeywordIdx km.keyword.toList km.line_text.toList with
  | none => ⟨km.keyword, "Not found", km.page_number, some km.line_number, "not_found", none⟩
  | some idx =>
    let keyword_end := idx + km.keyword.toList.length
    let text_after_keyword := km.line_text.toList.drop keyword_end
    match searchNumber text_after_keyword with
    | some v =>
      let value := String.mk v
      let sw := classifyValue value
      ⟨km.keyword, value, km.page_number, some km.line_number, sw.1, sw.2⟩
    | none => ⟨km.keyword, "Not found", km.page_number, some km.line_number, "not_found", none⟩

/-- The `not_found` match the engine synthesizes for a keyword with no
matches. -/
def synthNotFound (k : String) : ExtractionMatch :=
  ⟨k, "Not found", 1, none, "not_found", none⟩

/-- Number of (page, line) pairs on which the normalized keyword `kn` matches:
exactly the lines for which `KeywordMatcher.find_keywords` emits a
`KeywordMatch`. -/
def pageHits (kn : String) (pages : List PageContent) : Nat :=
  (pages.map fun p =>
    (p.lines.filter fun t => (findKeywordIdx kn.toList t.toList).isSome).length).sum

/-! ## Specification-side view of `NUMBER_PATTERN` tokens (claim C1)

The claim speaks of "the first numeric token matching
`\d{1,3}(,\d{3})*(\.\d+)?`" after the keyword. These definitions state, from
the regular expression itself rather than from the scanning code, what it
means for a word-boundary-delimited token of that language to occur at a
position of a string; the theorem for C1 proves that the scanner returns the
token at the leftmost such position (maximal in length there, as the greedy
pattern demands). -/

/-- Whole-string membership in `(?:,\d{3})*(?:\.\d+)?`: any number of exact
`,ddd` groups followed by an optional dot with at least one digit, consuming
the whole string. -/
def numTail : List Char → Bool
  | [] => true
  | ',' :: d1 :: d2 :: d3 :: rest =>
    d1.isDigit && d2.isDigit && d3.isDigit && numTail rest
  | '.' :: rest =>
    !(rest.takeWhile Char.isDigit).isEmpty && (rest.dropWhile Char.isDigit).isEmpty
  | _ => false

/-- Whole-string membership in `\d{1,3}(?:,\d{3})*(?:\.\d+)?`. -/
def inNumberLang (l : List Char) : Bool :=
  1 ≤ (l.takeWhile Char.isDigit).length && (l.takeWhile Char.isDigit).length ≤ 3
    && numTail (l.dropWhile Char.isDigit)

/-- A token of the number language occurs at position `i` with length `len`
in `s`, with both `\b` boundaries; `pw` tells whether the character before
position 0 is a word character (for a fresh string it is not). Tokens start
and end with a digit, so each boundary reduces to the neighbour being a
non-word character or absent. -/
def numTokenAtP (pw : Bool) (s : List Char) (i len : Nat) : Bool :=
  ((s.drop i).take len).length = len && 1 ≤ len
    && inNumberLang ((s.drop i).take len)
    && (if i = 0 then !pw else !isWordO (s.get? (i - 1)))
    && !isWordO (s.get? (i + len))

/-- Token occurrence in a fresh string (no character before position 0). -/
def numTokenAt (s : List Char) (i len : Nat) : Bool :=
  numTokenAtP false s i len

/-- The part of `tryWithK` after the leading digits: search of
`(?:\.\d+)?\b` over the backtracking options. -/
def decSearch (v : List Char) : Option (List Char) :=
  firstSome (decOpts v) fun dp => if numTailBoundary dp.2 then some dp.1 else none

/-- The part of `tryWithK` after the leading digits: greedy search of
`(?:,\d{3})*(?:\.\d+)?\b` over the backtracking options. -/
def tailSearch (u : List Char) : Option (List Char) :=
  firstSome (commaOpts u) fun cp => (decSearch cp.2).map fun t => cp.1 ++ t

/-- `t` is a prefix of `u` in the tail language whose end sits at a word
boundary of `u`. -/
def validTail (u t : List Char) : Prop :=
  u.take t.length = t ∧ t.length ≤ u.length ∧ numTail t = true
    ∧ isWordO (u.get? t.length) = false

/-- Head test for a full `,ddd` group. -/
def isGroupStart : List Char → Bool
  | ',' :: d1 :: d2 :: d3 :: _ => d1.isDigit && d2.isDigit && d3.isDigit
  | _ => false

/-- `(i0, len0)` designates the first number token of `s` in the regex sense:
a token occurs there, no longer token starts at the same position, and no
token at all starts earlier. This is the specification-side reading of
"the first numeric token matching the pattern". -/
def firstNumToken (s : List Char) (i0 len0 : Nat) : Prop :=
  numTokenAt s i0 len0 = true
    ∧ (∀ len2, numTokenAt s i0 len2 = true → len2 ≤ len0)
    ∧ (∀ j len2, j < i0 → numTokenAt s j len2 = false)

/-! ## Concrete fixtures used by witnesses and counterexamples -/

/-- A valid document fixture. -/
def docOk : Document :=
  ⟨"/tmp/report.pdf", "report.pdf", "pdf", 2, true, none, .valid⟩

/-- An active keyword fixture. -/
def kwSalary : Keyword := ⟨"Salary", "salary", false, true⟩

/-- A ready application state with one valid document and one keyword. -/
def stateReady : ApplicationState := ⟨[docOk], [kwSalary], .ready, none, [], false⟩

/-- A processing application state. -/
def stateProcessing : ApplicationState :=
  ⟨[docOk], [kwSalary], .processing, none, [], true⟩

/-- A found match fixture. -/
def matchFound : ExtractionMatch := ⟨"Salary", "1200", 1, some 1, "found", none⟩

/-- Results with one error and one successful match. -/
def resultsPartial : ExtractionResults :=
  ⟨docOk, PersonalInformation.empty, [matchFound],
    [⟨"personal_info_extraction_error", "boom"⟩], []⟩

/-- Results with one error and no successful match. -/
def resultsFailed : ExtractionResults :=
  ⟨docOk, PersonalInformation.empty, [], [⟨"keyword_matching_error", "boom"⟩], []⟩

/-- Results with no errors. -/
def resultsClean : ExtractionResults :=
  ⟨docOk, PersonalInformation.empty, [matchFound], [], []⟩

/-- Page fixtures for the personal-information scan (claim C6): page 1 has
only a Cyrillic last-name label, page 2 an ID and a Cyrillic first-name label
(in this order, so that the captures stay on their own lines), page 3 a
middle-name label. -/
def pagePers1 : PageContent := ⟨1, "Фамилия: Петров", ["Фамилия: Петров"]⟩

/-- Second personal-information page fixture. -/
def pagePers2 : PageContent := ⟨2, "ID: 12345\nИмя: Иван", ["ID: 12345", "Имя: Иван"]⟩

/-- Third personal-information page fixture. -/
def pagePers3 : PageContent := ⟨3, "Отчество: Йорданов", ["Отчество: Йорданов"]⟩

/-- One-line page fixture for the engine counterexample. -/
def pageA : PageContent := ⟨1, "a 1", ["a 1"]⟩

/-- A keyword-match fixture whose line holds an ambiguous thousands value. -/
def kmSalary : KeywordMatch := ⟨"Salary", 1, 1, "Salary 1,234 USD"⟩

/-! ## Theorems -/

/-- Claim C10: for every state and error message, `fail_processing` changes
only `is_processing` (to false), `processing_status` (to `error`) and
`error_messages` (appending exactly the given message); `current_documents`,
`active_keywords` and `extraction_results` are unchanged, so earlier
extraction results survive a later failure report. -/
theorem claim10_fail_processing_frame (s : ApplicationState) (msg : String) :
    (s.fail_processing msg).is_processing = false ∧
    (s.fail_processing msg).processing_status = ProcessingStatus.error ∧
    (s.fail_processing msg).error_messages = s.error_messages ++ [msg] ∧
    (s.fail_processing msg).current_documents = s.current_documents ∧
    (s.fail_processing msg).active_keywords = s.active_keywords ∧
    (s.fail_processing msg).extraction_results = s.extraction_results :=
  ⟨rfl, rfl, rfl, rfl, rfl, rfl⟩

/-- Claim C4: `can_start_extraction` holds iff there is at least one document,
all documents are valid, at least one active keyword is present, processing is
not running, and the status is one of ready/complete/error/partial_success; in
particular it is false whenever `is_processing` is true, and it is true right
after `complete_processing` or `fail_processing` whenever valid documents and
keywords are still present. -/
theorem claim4_can_start_extraction (s : ApplicationState) :
    (s.can_start_extraction = true ↔
      (0 < s.current_documents.length ∧
        (∀ d ∈ s.current_documents, d.is_valid = true) ∧
        0 < s.active_keywords.length ∧ s.is_processing = false ∧
        (s.processing_status = .ready ∨ s.processing_status = .complete ∨
          s.processing_status = .error ∨ s.processing_status = .partial_success))) ∧
    (s.is_processing = true → s.can_start_extraction = false) ∧
    (∀ results msg,
      0 < s.current_documents.length →
      (∀ d ∈ s.current_documents, d.is_valid = true) →
      0 < s.active_keywords.length →
      (s.complete_processing results).can_start_extraction = true ∧
      (s.fail_processing msg).can_start_extraction = true) := by
  refine ⟨?_, ?_, ?_⟩
  · simp only [ApplicationState.can_start_extraction, Bool.and_eq_true,
      Bool.or_eq_true, beq_iff_eq, Bool.not_eq_true', List.all_eq_true,
      decide_eq_true_eq, Nat.lt_iff_add_one_le, Nat.zero_add]
    constructor
    · rintro ⟨⟨⟨⟨h1, h2⟩, h3⟩, h4⟩, h5⟩
      exact ⟨h1, h2, h3, h4, by tauto⟩
    · rintro ⟨h1, h2, h3, h4, h5⟩
      exact ⟨⟨⟨⟨h1, h2⟩, h3⟩, h4⟩, by tauto⟩
  · intro h
    simp [ApplicationState.can_start_extraction, h]
  · intro results msg h1 h2 h3
    constructor
    · cases results with
      | batch b =>
        by_cases hw : b.has_warnings = true <;> by_cases hr : b.has_results = true <;>
          simp_all [ApplicationState.complete_processing,
            ApplicationState.can_start_extraction, List.all_eq_true]
      | single r =>
        by_cases he : r.has_errors = true <;>
          by_cases hf : (r.match_list.any fun m => m.status == "found") = true <;>
          simp_all [ApplicationState.complete_processing,
            ApplicationState.can_start_extraction, List.all_eq_true]
    · simp_all [ApplicationState.fail_processing,
        ApplicationState.can_start_extraction, List.all_eq_true]

/-- Witness for C4 at a concrete state: after `complete_processing` and after
`fail_processing` extraction can start again. -/
theorem claim4_witness :
    (stateReady.complete_processing (.single resultsClean)).can_start_extraction = true ∧
    (stateReady.fail_processing "engine crashed").can_start_extraction = true :=
  (claim4_can_start_extraction stateReady).2.2 (.single resultsClean) "engine crashed"
    (by decide) (by decide) (by decide)

/-- Claim C5: `complete_processing` with single-extraction results clears
`is_processing` and derives the status from the result content: errors with no
successful match give `error`, errors with at least one successful match give
`partial_success`, no errors give `complete`. -/
theorem claim5_complete_processing_single (s : ApplicationState) (r : ExtractionResults) :
    (s.complete_processing (.single r)).is_processing = false ∧
    (r.has_errors = true →
      ((¬ ∃ m ∈ r.match_list, m.status = "found") →
        (s.complete_processing (.single r)).processing_status = .error) ∧
      ((∃ m ∈ r.match_list, m.status = "found") →
        (s.complete_processing (.single r)).processing_status = .partial_success)) ∧
    (r.has_errors = false →
      (s.complete_processing (.single r)).processing_status = .complete) := by
  refine ⟨rfl, fun he => ⟨fun hn => ?_, fun hy => ?_⟩, fun he => ?_⟩
  · simp only [ApplicationState.complete_processing, he, if_true]
    have hfalse : r.match_list.any (fun m => m.status == "found") = false := by
      rw [List.any_eq_false]
      intro m hm
      simp only [beq_iff_eq]
      exact fun h => hn ⟨m, hm, h⟩
    simp [hfalse]
  · simp only [ApplicationState.complete_processing, he, if_true]
    have : r.match_list.any (fun m => m.status == "found") = true := by
      simp only [List.any_eq_true, beq_iff_eq]
      simpa using hy
    simp [this]
  · simp [ApplicationState.complete_processing, he]

/-- Witness for C5 at concrete results: partial success, error and complete. -/
theorem claim5_witness :
    (stateProcessing.complete_processing (.single resultsPartial)).processing_status
        = .partial_success ∧
    (stateProcessing.complete_processing (.single resultsFailed)).processing_status
        = .error ∧
    (stateProcessing.complete_processing (.single resultsClean)).processing_status
        = .complete :=
  ⟨((claim5_complete_processing_single stateProcessing resultsPartial).2.1
      (by decide)).2 ⟨matchFound, by decide, rfl⟩,
    ((claim5_complete_processing_single stateProcessing resultsFailed).2.1
      (by decide)).1 (by decide),
    (claim5_complete_processing_single stateProcessing resultsClean).2.2 (by decide)⟩

/-- Claim C7: single-flight execution. If a worker is running,
`start_extraction` enqueues an error message immediately (the queue is
appended to, not cleared), spawns no worker, and the in-flight job's wrapper
still enqueues the job's own terminal message and clears the running flag.
Otherwise stale messages are cleared, the flag is set, a worker is spawned,
and its wrapper enqueues `complete` on success or `error` on an exception and
clears the flag in both cases. -/
theorem claim7_single_flight (c : ThreadCoordinator)
    (outcome : Except String ExtractionResults) :
    (c.is_running = true →
      (c.start_extraction).2 = false ∧
      (c.start_extraction).1.message_queue
        = c.message_queue ++ [CoordMessage.error "Extraction already in progress"] ∧
      (c.start_extraction).1.is_running = true ∧
      ((c.start_extraction).1.worker_wrapper outcome).message_queue
        = (c.start_extraction).1.message_queue ++ [terminalMessage outcome] ∧
      ((c.start_extraction).1.worker_wrapper outcome).is_running = false) ∧
    (c.is_running = false →
      (c.start_extraction).2 = true ∧
      (c.start_extraction).1.message_queue = [] ∧
      (c.start_extraction).1.is_running = true ∧
      ((c.start_extraction).1.worker_wrapper outcome).message_queue
        = [terminalMessage outcome] ∧
      ((c.start_extraction).1.worker_wrapper outcome).is_running = false) := by
  constructor
  · intro h
    cases outcome <;>
      simp [ThreadCoordinator.start_extraction, ThreadCoordinator.worker_wrapper,
        ThreadCoordinator.send_error, ThreadCoordinator.send_complete,
        ThreadCoordinator.clear_queue, terminalMessage, h]
  · intro h
    cases outcome <;>
      simp [ThreadCoordinator.start_extraction, ThreadCoordinator.worker_wrapper,
        ThreadCoordinator.send_error, ThreadCoordinator.send_complete,
        ThreadCoordinator.clear_queue, terminalMessage, h]

/-- Witness for C7 at a concrete busy coordinator: the refused call appends
the error message, keeps the old queue, and the in-flight job still delivers
its completion. -/
theorem claim7_witness :
    ((⟨true, [CoordMessage.progress "p"]⟩ : ThreadCoordinator).start_extraction).2
        = false ∧
    ((⟨true, [CoordMessage.progress "p"]⟩ : ThreadCoordinator).start_extraction).1.message_queue
        = [CoordMessage.progress "p", CoordMessage.error "Extraction already in progress"] ∧
    (((⟨true, [CoordMessage.progress "p"]⟩ : ThreadCoordinator).start_extraction).1.worker_wrapper
        (.ok resultsClean)).message_queue
      = [CoordMessage.progress "p", CoordMessage.error "Extraction already in progress",
          CoordMessage.complete resultsClean] := by
  have h := (claim7_single_flight ⟨true, [CoordMessage.progress "p"]⟩ (.ok resultsClean)).1 rfl
  refine ⟨h.1, by simpa using h.2.1, ?_⟩
  rw [h.2.2.2.1, h.2.1]
  rfl

/-- Claim C3: per-stage error isolation of `ExtractionEngine.extract`. For
every input and every outcome of the guarded regions: a keyword-matching,
number-extraction or personal-info failure is recorded as a structured error
of the corresponding type; a personal-info failure substitutes the empty
record while a success is kept even when earlier stages failed (later stages
are not aborted); an exception escaping the stage handlers is recorded as a
generic `extraction_error`; no error is recorded when nothing failed; and the
call always returns a populated `ExtractionResults` carrying the document. -/
theorem claim3_engine_error_isolation (keywords : List String) (doc : Document)
    (kmO : Except String (List KeywordMatch))
    (neO : List KeywordMatch → Except String (List ExtractionMatch))
    (piO : Except String PersonalInformation) (postO : Except String Unit) :
    (∀ e, kmO = .error e →
      (⟨"keyword_matching_error", "Failed to match keywords: " ++ e⟩ : EngineError)
        ∈ (engineExtractWith keywords doc kmO neO piO postO).errors) ∧
    (∀ e, neO (engineStage1Matches kmO) = .error e →
      (⟨"number_extraction_error", "Failed to extract numbers: " ++ e⟩ : EngineError)
        ∈ (engineExtractWith keywords doc kmO neO piO postO).errors) ∧
    (∀ e, piO = .error e →
      (⟨"personal_info_extraction_error",
          "Failed to extract personal information: " ++ e⟩ : EngineError)
          ∈ (engineExtractWith keywords doc kmO neO piO postO).errors ∧
      (engineExtractWith keywords doc kmO neO piO postO).personal_info
        = PersonalInformation.empty) ∧
    (∀ p, piO = .ok p →
      (engineExtractWith keywords doc kmO neO piO postO).personal_info = p) ∧
    (∀ e, postO = .error e →
      (⟨"extraction_error", "Unexpected error during extraction: " ++ e⟩ : EngineError)
        ∈ (engineExtractWith keywords doc kmO neO piO postO).errors) ∧
    (∀ kms ems p, kmO = .ok kms → neO kms = .ok ems → piO = .ok p → postO = .ok () →
      (engineGroupLoop ems keywords).2.2 = none →
      (engineExtractWith keywords doc kmO neO piO postO).errors = []) ∧
    (engineExtractWith keywords doc kmO neO piO postO).document = doc := by
  refine ⟨?_, ?_, ?_, ?_, ?_, ?_, ?_⟩
  · intro e he
    subst he
    cases hne : neO (engineStage1Matches (Except.error e)) <;>
      cases piO <;> cases postO <;>
        simp [engineExtractWith, hne]
  · intro e hne
    cases kmO <;> cases piO <;> cases postO <;> simp [engineExtractWith, hne]
  · intro e hpi
    subst hpi
    cases hne : neO (engineStage1Matches kmO) <;> cases kmO <;> cases postO <;>
      simp [engineExtractWith, hne]
  · intro p hpi
    subst hpi
    cases hne : neO (engineStage1Matches kmO) <;> cases kmO <;> cases postO <;>
      simp [engineExtractWith, hne]
  · intro e hpost
    subst hpost
    cases hne : neO (engineStage1Matches kmO) <;> cases kmO <;> cases piO <;>
      simp [engineExtractWith, hne]
  · intro kms ems p hkm hne hpi hpost hg
    subst hkm; subst hpi; subst hpost
    simp [engineExtractWith, engineStage1Matches, hne, hg]
  · cases hne : neO (engineStage1Matches kmO) <;> cases kmO <;> cases piO <;>
      cases postO <;> simp [engineExtractWith, hne]

/-- Witness for C3: all four guarded regions fail at once on a concrete
input; every structured error is recorded and the empty personal-info record
is substituted. -/
theorem claim3_witness :
    (⟨"keyword_matching_error", "Failed to match keywords: kw boom"⟩ : EngineError)
      ∈ (engineExtractWith ["Salary"] docOk (.error "kw boom")
          (fun _ => .error "ne boom") (.error "pi boom") (.error "post boom")).errors ∧
    (⟨"number_extraction_error", "Failed to extract numbers: ne boom"⟩ : EngineError)
      ∈ (engineExtractWith ["Salary"] docOk (.error "kw boom")
          (fun _ => .error "ne boom") (.error "pi boom") (.error "post boom")).errors ∧
    (⟨"personal_info_extraction_error",
        "Failed to extract personal information: pi boom"⟩ : EngineError)
      ∈ (engineExtractWith ["Salary"] docOk (.error "kw boom")
          (fun _ => .error "ne boom") (.error "pi boom") (.error "post boom")).errors ∧
    (⟨"extraction_error", "Unexpected error during extraction: post boom"⟩ : EngineError)
      ∈ (engineExtractWith ["Salary"] docOk (.error "kw boom")
          (fun _ => .error "ne boom") (.error "pi boom") (.error "post boom")).errors ∧
    (engineExtractWith ["Salary"] docOk (.error "kw boom")
        (fun _ => .error "ne boom") (.error "pi boom") (.error "post boom")).personal_info
      = PersonalInformation.empty := by
  have h := claim3_engine_error_isolation ["Salary"] docOk (.error "kw boom")
    (fun _ => .error "ne boom") (.error "pi boom") (.error "post boom")
  exact ⟨h.1 "kw boom" rfl, h.2.1 "ne boom" rfl, (h.2.2.1 "pi boom" rfl).1,
    h.2.2.2.2.1 "post boom" rfl, (h.2.2.1 "pi boom" rfl).2⟩

/-- Counterexample to claim C8 as stated: `ExtractionMatch.__post_init__`
accepts the empty string as the value of a `not_found` match and leaves it
unchanged, so a constructed match can violate
`status = not_found ⇒ value = 'Not found'`. -/
theorem claim8_counterexample :
    mkExtractionMatch "Salary" "" 1 none "not_found" none
      = .ok ⟨"Salary", "", 1, none, "not_found", none⟩ ∧
    (⟨"Salary", "", 1, none, "not_found", none⟩ : ExtractionMatch).value ≠ "Not found" :=
  ⟨rfl, by decide⟩

/-- Claim C8 amended: every constructed `ExtractionMatch` with status
`not_found` has value `'Not found'` or the empty string (the `__post_init__`
rewrite tuple `(None, 'Not found', '')` deliberately exempts the empty
string; `None` cannot occur for the `str`-typed field). -/
theorem claim8_not_found_value (keyword value : String) (page : Nat)
    (ln : Option Nat) (st : String) (w : Option String) (m : ExtractionMatch)
    (h : mkExtractionMatch keyword value page ln st w = .ok m)
    (hs : m.status = "not_found") :
    m.value = "Not found" ∨ m.value = "" := by
  unfold mkExtractionMatch at h
  split at h
  · exact absurd h (by simp)
  · split at h
    · exact absurd h (by simp)
    · split at h
      · exact absurd h (by simp)
      · split at h
        · exact absurd h (by simp)
        · split at h
          · cases h
            left; rfl
          · rename_i hcond
            cases h
            have hb : ¬(st = "not_found" ∧ value ≠ "Not found" ∧ value ≠ "") := by
              simpa [Bool.and_eq_true, decide_eq_true_eq] using hcond
            rcases Decidable.em (value = "Not found") with hv | hv
            · exact Or.inl hv
            · rcases Decidable.em (value = "") with hv2 | hv2
              · exact Or.inr hv2
              · exact absurd ⟨hs, hv, hv2⟩ hb

/-- Witness for the amended C8 at a concrete construction. -/
theorem claim8_witness :
    (⟨"Salary", "", 1, none, "not_found", none⟩ : ExtractionMatch).value = "Not found" ∨
    (⟨"Salary", "", 1, none, "not_found", none⟩ : ExtractionMatch).value = "" :=
  claim8_not_found_value "Salary" "" 1 none "not_found" none _ rfl rfl

/-- Claim C6 (evidence of the code bug, evaluating the embedded code at the
failing input): page 1 supplies only the last name, so `extraction_page`
becomes 1; page 2 supplies the first name and the ID, completing the record,
but the first-name branch assigns `extraction_page` unconditionally and
overwrites it with 2 (every other branch guards with `is None`); page 3 is
then still scanned — the loop's `if result.is_complete: break` reads the
stale `is_complete` computed for page 1, which attribute assignment never
updates, so the claimed stop-on-completion never happens — and fills the
middle name from a page after the record was already complete. -/
theorem claim6_personal_info_scan_divergence :
    (PersonalInfoExtractor.extract_from_page pagePers1).last_name = some "Петров" ∧
    (PersonalInfoExtractor.extract_from_page pagePers1).extraction_page = some 1 ∧
    (PersonalInfoExtractor.extract_from_page pagePers1).first_name = none ∧
    (PersonalInfoExtractor.scanPage (PersonalInfoExtractor.extract_from_page pagePers1)
        pagePers2).first_name = some "Иван" ∧
    PersonalInformation.id_number_prefix
      (PersonalInfoExtractor.scanPage (PersonalInfoExtractor.extract_from_page pagePers1)
        pagePers2) = some "1234" ∧
    (PersonalInfoExtractor.extract_personal_info [pagePers1, pagePers2, pagePers3])
      = ⟨some "Иван", some "Петров", some "Йорданов", some "1234", none,
          "cyrillic", some 2, true⟩ :=
  ⟨rfl, rfl, rfl, rfl, rfl, rfl⟩

/-! ### Helper lemmas for the engine match-list theorem (C2) -/

theorem kwMatchAtSuffix_nil_false (kw : List Char) (prev : Option Char) (hk : kw ≠ []) :
    kwMatchAtSuffix kw prev [] = false := by
  have hmap : kw.map pyToLower ≠ [] := by simpa [List.map_eq_nil_iff] using hk
  unfold kwMatchAtSuffix
  rw [if_neg (by simp [List.isEmpty_iff, hk])]
  simp only [List.take_nil, List.map_nil, Bool.and_eq_false_iff]
  left; left
  rw [beq_eq_false_iff_ne]
  exact fun h => hmap h.symm

theorem findKeywordIdx_nil (kw : List Char) (hk : kw ≠ []) :
    findKeywordIdx kw [] = none := by
  unfold findKeywordIdx findKeywordIdxAux
  simp [kwMatchAtSuffix_nil_false kw none hk]

theorem toList_ne_nil (s : String) (h : s ≠ "") : s.toList ≠ [] := by
  intro hl
  apply h
  cases s with
  | mk data =>
    simp only [String.toList] at hl
    simp [hl]

theorem mkExtractionMatch_ok (keyword v : String) (pg : Nat) (ln : Option Nat)
    (st : String) (w : Option String)
    (hst : st = "found" ∨ st = "not_found" ∨ st = "ambiguous")
    (hpg : 1 ≤ pg) (hln : ln ≠ some 0) (hk : keyword ≠ "") (hks : pyStrip keyword ≠ "")
    (hnv : ¬(st = "not_found" ∧ v ≠ "Not found" ∧ v ≠ "")) :
    mkExtractionMatch keyword v pg ln st w = .ok ⟨keyword, v, pg, ln, st, w⟩ := by
  unfold mkExtractionMatch
  rw [if_neg (by rcases hst with h | h | h <;> simp [h])]
  rw [if_neg (by omega)]
  rw [if_neg (by simp [beq_iff_eq, hln])]
  rw [if_neg (by simp [hk, hks])]
  rw [if_neg (by simpa [Bool.and_eq_true, decide_eq_true_eq] using hnv)]

theorem classifyValue_status (v : String) :
    (classifyValue v).1 = "ambiguous" ∨ (classifyValue v).1 = "found" := by
  unfold classifyValue
  split
  · split <;> simp
  · simp

theorem extractOneData_keyword (km : KeywordMatch) :
    (extractOneData km).keyword = km.keyword := by
  unfold extractOneData
  cases hfi : findKeywordIdx km.keyword.toList km.line_text.toList with
  | none => rfl
  | some idx =>
    cases hsn : searchNumber (km.line_text.toList.drop (idx + km.keyword.toList.length)) with
    | some v => simp only [hsn]
    | none => simp only [hsn]

theorem extractOne_ok (km : KeywordMatch) (hk : km.keyword ≠ "")
    (hks : pyStrip km.keyword ≠ "") (hp : 1 ≤ km.page_number) (hl : 1 ≤ km.line_number) :
    NumberExtractor.extractOne km = .ok (extractOneData km) := by
  have hln : (some km.line_number : Option Nat) ≠ some 0 := by
    simp only [ne_eq, Option.some.injEq]
    omega
  unfold NumberExtractor.extractOne extractOneData
  cases hfi : findKeywordIdx km.keyword.toList km.line_text.toList with
  | none =>
    exact mkExtractionMatch_ok _ _ _ _ _ _ (Or.inr (Or.inl rfl)) hp hln hk hks (by simp)
  | some idx =>
    cases hsn : searchNumber (km.line_text.toList.drop (idx + km.keyword.toList.length)) with
    | some v =>
      simp only [hsn]
      refine mkExtractionMatch_ok _ _ _ _ _ _ ?_ hp hln hk hks ?_
      · rcases classifyValue_status (String.mk v) with h | h <;> simp [h]
      · rcases classifyValue_status (String.mk v) with h | h <;> simp [h]
    | none =>
      simp only [hsn]
      exact mkExtractionMatch_ok _ _ _ _ _ _ (Or.inr (Or.inl rfl)) hp hln hk hks (by simp)

theorem extract_numbers_ok (kms : List KeywordMatch)
    (h : ∀ m ∈ kms, m.keyword ≠ "" ∧ pyStrip m.keyword ≠ ""
      ∧ 1 ≤ m.page_number ∧ 1 ≤ m.line_number) :
    NumberExtractor.extract_numbers kms = .ok (kms.map extractOneData) := by
  induction kms with
  | nil => rfl
  | cons m rest ih =>
    obtain ⟨h1, h2, h3, h4⟩ := h m (List.mem_cons_self m rest)
    have hrest := ih fun m' hm' => h m' (List.mem_cons_of_mem m hm')
    unfold NumberExtractor.extract_numbers
    rw [extractOne_ok m h1 h2 h3 h4, hrest]
    rfl

theorem scanLines_ok (kn : String) (pnum : Nat) (lines : List String)
    (hk : kn ≠ "") (hp : 1 ≤ pnum) :
    ∀ n, 1 ≤ n →
      ∃ ms, KeywordMatcher.scanLines kn pnum n lines = .ok ms ∧
        ms.length
          = (lines.filter fun t => (findKeywordIdx kn.toList t.toList).isSome).length ∧
        ∀ m ∈ ms, m.keyword = kn ∧ m.page_number = pnum ∧ 1 ≤ m.line_number := by
  induction lines with
  | nil => exact fun n hn => ⟨[], rfl, by simp, by simp⟩
  | cons t rest ih =>
    intro n hn
    obtain ⟨ms, hms, hlen, hmem⟩ := ih (n + 1) (by omega)
    by_cases hidx : (findKeywordIdx kn.toList t.toList).isSome = true
    · have ht : t ≠ "" := by
        intro h
        subst h
        rw [show ("" : String).toList = [] from rfl,
          findKeywordIdx_nil kn.toList (toList_ne_nil kn hk)] at hidx
        simp at hidx
      have hmk : mkKeywordMatch kn pnum n t = .ok ⟨kn, pnum, n, t⟩ := by
        unfold mkKeywordMatch
        rw [if_neg (by omega), if_neg (by omega), if_neg hk, if_neg ht]
      have hidx2 : (findKeywordIdx kn.data t.data).isSome = true := hidx
      refine ⟨⟨kn, pnum, n, t⟩ :: ms, ?_, ?_, ?_⟩
      · unfold KeywordMatcher.scanLines
        simp only [hidx, hidx2, if_true, hmk, hms]
        rfl
      · rw [List.filter_cons, if_pos hidx]
        simp [hlen]
      · intro m hm
        rcases List.mem_cons.mp hm with h | h
        · subst h
          exact ⟨rfl, rfl, hn⟩
        · exact hmem m h
    · have hidx2 : (findKeywordIdx kn.data t.data).isSome = false := by
        simpa using hidx
      refine ⟨ms, ?_, ?_, hmem⟩
      · unfold KeywordMatcher.scanLines
        simp [hidx, hidx2, hms]
      · rw [List.filter_cons, if_neg hidx]
        exact hlen

theorem scanPages_ok (kn : String) (pages : List PageContent) (hk : kn ≠ "")
    (hpg : ∀ p ∈ pages, 1 ≤ p.page_number) :
    ∃ ms, KeywordMatcher.scanPages kn pages = .ok ms ∧
      ms.length = pageHits kn pages ∧
      ∀ m ∈ ms, m.keyword = kn ∧ 1 ≤ m.page_number ∧ 1 ≤ m.line_number := by
  induction pages with
  | nil => exact ⟨[], rfl, by simp [pageHits], by simp⟩
  | cons p ps ih =>
    obtain ⟨a, ha, halen, hamem⟩ :=
      scanLines_ok kn p.page_number p.lines hk (hpg p (List.mem_cons_self p ps)) 1 le_rfl
    obtain ⟨b, hb, hblen, hbmem⟩ := ih fun q hq => hpg q (List.mem_cons_of_mem p hq)
    refine ⟨a ++ b, ?_, ?_, ?_⟩
    · unfold KeywordMatcher.scanPages
      rw [ha, hb]
      rfl
    · simp [pageHits, List.map_cons, List.sum_cons] at *
      omega
    · intro m hm
      rcases List.mem_append.mp hm with h | h
      · obtain ⟨h1, h2, h3⟩ := hamem m h
        exact ⟨h1, h2 ▸ hpg p (List.mem_cons_self p ps), h3⟩
      · exact hbmem m h

theorem find_keywords_ok (pages : List PageContent) (keywords : List String)
    (hnd : keywords.Nodup)
    (hks : ∀ k ∈ keywords, pyStrip k = k ∧ k ≠ "")
    (hpg : ∀ p ∈ pages, 1 ≤ p.page_number) :
    ∃ kms, KeywordMatcher.find_keywords pages keywords = .ok kms ∧
      (∀ m ∈ kms, m.keyword ∈ keywords ∧ 1 ≤ m.page_number ∧ 1 ≤ m.line_number) ∧
      ∀ k ∈ keywords,
        (kms.filter fun m => m.keyword == k).length = pageHits k pages := by
  induction keywords with
  | nil => exact ⟨[], rfl, by simp, by simp⟩
  | cons k ks ih =>
    obtain ⟨hkstrip, hkne⟩ := hks k (List.mem_cons_self k ks)
    obtain ⟨a, ha, halen, hamem⟩ := scanPages_ok k pages hkne hpg
    obtain ⟨b, hb, hbmem, hbfilt⟩ :=
      ih (List.Nodup.of_cons hnd) fun k' h => hks k' (List.mem_cons_of_mem k h)
    have hknotin : k ∉ ks := (List.nodup_cons.mp hnd).1
    refine ⟨a ++ b, ?_, ?_, ?_⟩
    · unfold KeywordMatcher.find_keywords
      rw [hkstrip, ha, hb]
      rfl
    · intro m hm
      rcases List.mem_append.mp hm with h | h
      · obtain ⟨h1, h2, h3⟩ := hamem m h
        exact ⟨h1 ▸ List.mem_cons_self k ks, h2, h3⟩
      · obtain ⟨h1, h2, h3⟩ := hbmem m h
        exact ⟨List.mem_cons_of_mem k h1, h2, h3⟩
    · intro k' hk'
      rw [List.filter_append]
      rcases List.mem_cons.mp hk' with h | h
      · subst h
        have hfa : a.filter (fun m => m.keyword == k') = a :=
          List.filter_eq_self.mpr fun m hm => by
            simp [beq_iff_eq, (hamem m hm).1]
        have hfb : b.filter (fun m => m.keyword == k') = [] :=
          List.filter_eq_nil_iff.mpr fun m hm => by
            simp only [beq_iff_eq, decide_eq_true_eq]
            intro hkw
            exact hknotin (hkw ▸ (hbmem m hm).1)
        rw [hfa, hfb]
        simpa using halen
      · have hkk' : k ≠ k' := fun he => hknotin (he ▸ h)
        have hfa : a.filter (fun m => m.keyword == k') = [] :=
          List.filter_eq_nil_iff.mpr fun m hm => by
            simp only [beq_iff_eq, decide_eq_true_eq]
            intro hkw
            exact hkk' ((hamem m hm).1.symm.trans hkw)
        rw [hfa]
        simpa using hbfilt k' h

theorem filter_map_extractOneData (l : List KeywordMatch) (k : String) :
    ((l.map extractOneData).filter fun m => m.keyword == k)
      = (l.filter fun m => m.keyword == k).map extractOneData := by
  induction l with
  | nil => rfl
  | cons m rest ih =>
    simp only [List.map_cons, List.filter_cons, extractOneData_keyword]
    split <;> simp [ih]

theorem engineGroupLoop_ok (ems : List ExtractionMatch) (keywords : List String)
    (hks : ∀ k ∈ keywords, k ≠ "" ∧ pyStrip k ≠ "") :
    (engineGroupLoop ems keywords).2.2 = none ∧
    (engineGroupLoop ems keywords).1
      = keywords.flatMap fun k =>
          if (ems.filter fun m => m.keyword == k).isEmpty then [synthNotFound k]
          else ems.filter fun m => m.keyword == k := by
  induction keywords with
  | nil => exact ⟨rfl, rfl⟩
  | cons k ks ih =>
    obtain ⟨hk1, hk2⟩ := hks k (List.mem_cons_self k ks)
    obtain ⟨ihe, ihm⟩ := ih fun k' h => hks k' (List.mem_cons_of_mem k h)
    have hmk : mkExtractionMatch k "Not found" 1 none "not_found" none
        = .ok (synthNotFound k) :=
      mkExtractionMatch_ok k "Not found" 1 none "not_found" none
        (Or.inr (Or.inl rfl)) le_rfl (by simp) hk1 hk2 (by simp)
    by_cases hemp : (ems.filter fun m => m.keyword == k).isEmpty = true
    · constructor
      · unfold engineGroupLoop
        simp only [if_pos hemp, hmk]
        exact ihe
      · unfold engineGroupLoop
        simp only [if_pos hemp, hmk, List.flatMap_cons]
        rw [ihm]
        rfl
    · constructor
      · unfold engineGroupLoop
        simp only [if_neg hemp]
        exact ihe
      · unfold engineGroupLoop
        simp only [if_neg hemp, List.flatMap_cons]
        rw [ihm]

theorem filter_keyword_bind (kws : List String) (f : String → List ExtractionMatch)
    (hnd : kws.Nodup) (hf : ∀ k ∈ kws, ∀ m ∈ f k, m.keyword = k)
    (k : String) (hk : k ∈ kws) :
    ((kws.flatMap f).filter fun m => m.keyword == k) = f k := by
  induction kws with
  | nil => cases hk
  | cons a l ih =>
    have hanotin : a ∉ l := (List.nodup_cons.mp hnd).1
    rw [List.flatMap_cons, List.filter_append]
    rcases List.mem_cons.mp hk with h | h
    · subst h
      have hfa : (f k).filter (fun m => m.keyword == k) = f k :=
        List.filter_eq_self.mpr fun m hm => by
          simp [beq_iff_eq, hf k (List.mem_cons_self k l) m hm]
      have hfb : (l.flatMap f).filter (fun m => m.keyword == k) = [] :=
        List.filter_eq_nil_iff.mpr fun m hm => by
          simp only [beq_iff_eq, decide_eq_true_eq]
          obtain ⟨k', hk', hmk'⟩ := List.mem_flatMap.mp hm
          intro hkw
          have hkk' : k = k' := hkw.symm.trans (hf k' (List.mem_cons_of_mem k hk') m hmk')
          exact hanotin (hkk' ▸ hk')
      rw [hfa, hfb, List.append_nil]
    · have hak : a ≠ k := fun he => hanotin (he ▸ h)
      have hfa : (f a).filter (fun m => m.keyword == k) = [] :=
        List.filter_eq_nil_iff.mpr fun m hm => by
          simp only [beq_iff_eq, decide_eq_true_eq]
          intro hkw
          exact hak ((hf a (List.mem_cons_self a l) m hm).symm.trans hkw)
      rw [hfa, List.nil_append]
      exact ih (List.Nodup.of_cons hnd)
        (fun k' hk' => hf k' (List.mem_cons_of_mem a hk')) h

/-- Claim C2 amended: for page lists with valid page numbers and non-empty
keyword lists whose keywords are pairwise distinct, non-empty and equal to
their stripped form, when each keyword occurs on at most one matched line
`ExtractionEngine.extract` returns exactly one `ExtractionMatch` per input
keyword, grouped in the original input-keyword order (the match-list keyword
sequence equals the keyword list); and every input keyword with zero keyword
matches gets exactly one synthesized match with status `not_found`, value
`'Not found'` and page number 1. -/
theorem claim2_one_match_per_keyword (pages : List PageContent) (keywords : List String)
    (hne : keywords ≠ []) (hnd : keywords.Nodup)
    (hstrip : ∀ k ∈ keywords, pyStrip k = k ∧ k ≠ "")
    (hpg : ∀ p ∈ pages, 1 ≤ p.page_number)
    (hocc : ∀ k ∈ keywords, pageHits k pages ≤ 1) :
    ((ExtractionEngine.extract pages keywords none).match_list.map fun m => m.keyword)
        = keywords ∧
    ∀ k ∈ keywords, pageHits k pages = 0 →
      ((ExtractionEngine.extract pages keywords none).match_list.filter
          fun m => m.keyword == k) = [synthNotFound k] := by
  obtain ⟨kms, hkms, hmemk, hfilt⟩ := find_keywords_ok pages keywords hnd hstrip hpg
  have hvalid : ∀ m ∈ kms, m.keyword ≠ "" ∧ pyStrip m.keyword ≠ ""
      ∧ 1 ≤ m.page_number ∧ 1 ≤ m.line_number := by
    intro m hm
    obtain ⟨h1, h2, h3⟩ := hmemk m hm
    obtain ⟨hs, hn⟩ := hstrip m.keyword h1
    exact ⟨hn, by rw [hs]; exact hn, h2, h3⟩
  have hnum := extract_numbers_ok kms hvalid
  have hgl := engineGroupLoop_ok (kms.map extractOneData) keywords fun k hk =>
    ⟨(hstrip k hk).2, by rw [(hstrip k hk).1]; exact (hstrip k hk).2⟩
  have hml : (ExtractionEngine.extract pages keywords none).match_list
      = (engineGroupLoop (kms.map extractOneData) keywords).1 := by
    unfold ExtractionEngine.extract engineExtractWith engineStage1Matches
    rw [hkms]
    simp only [hnum]
  have hgrlen : ∀ k ∈ keywords,
      ((kms.map extractOneData).filter fun m => m.keyword == k).length
        = pageHits k pages := by
    intro k hk
    rw [filter_map_extractOneData, List.length_map]
    exact hfilt k hk
  constructor
  · rw [hml, hgl.2]
    have hmain : ∀ kws : List String, (∀ k ∈ kws, k ∈ keywords) →
        ((kws.flatMap fun k =>
            if ((kms.map extractOneData).filter fun m => m.keyword == k).isEmpty
            then [synthNotFound k]
            else (kms.map extractOneData).filter fun m => m.keyword == k).map
          fun m => m.keyword) = kws := by
      intro kws
      induction kws with
      | nil => intro _; rfl
      | cons k ks ih =>
        intro hsub
        have hk' : k ∈ keywords := hsub k (List.mem_cons_self k ks)
        rw [List.flatMap_cons, List.map_append,
          ih fun k' h => hsub k' (List.mem_cons_of_mem k h)]
        by_cases hemp :
            ((kms.map extractOneData).filter fun m => m.keyword == k).isEmpty = true
        · rw [if_pos hemp]
          rfl
        · rw [if_neg hemp]
          have hlen1 :
              ((kms.map extractOneData).filter fun m => m.keyword == k).length = 1 := by
            have h0 :
                ((kms.map extractOneData).filter fun m => m.keyword == k).length ≠ 0 := by
              intro h0
              exact hemp (by simpa [List.isEmpty_iff, List.length_eq_zero] using h0)
            have hle := hgrlen k hk' ▸ hocc k hk'
            omega
          obtain ⟨m, hm⟩ := List.length_eq_one.mp hlen1
          have hmk : m.keyword = k := by
            have hmem : m ∈ (kms.map extractOneData).filter fun m => m.keyword == k := by
              rw [hm]
              exact List.mem_singleton.mpr rfl
            simpa [beq_iff_eq] using (List.mem_filter.mp hmem).2
          rw [hm]
          simp [hmk]
    exact hmain keywords fun k hk => hk
  · intro k hk h0
    rw [hml, hgl.2]
    have hempty : ((kms.map extractOneData).filter fun m => m.keyword == k) = [] := by
      have := hgrlen k hk
      rw [h0] at this
      exact List.length_eq_zero.mp this
    have happ := filter_keyword_bind keywords
      (fun k => if ((kms.map extractOneData).filter fun m => m.keyword == k).isEmpty
        then [synthNotFound k]
        else (kms.map extractOneData).filter fun m => m.keyword == k)
      hnd ?_ k hk
    · rw [happ]
      exact if_pos (by rw [hempty]; rfl)
    · intro k' _ m hm
      have hm2 : m ∈ (if ((kms.map extractOneData).filter
            fun m => m.keyword == k').isEmpty = true
          then [synthNotFound k']
          else (kms.map extractOneData).filter fun m => m.keyword == k') := hm
      by_cases hemp :
          ((kms.map extractOneData).filter fun m => m.keyword == k').isEmpty = true
      · rw [if_pos hemp] at hm2
        rw [List.mem_singleton.mp hm2]
        rfl
      · rw [if_neg hemp] at hm2
        simpa [beq_iff_eq] using (List.mem_filter.mp hm2).2

/-- Witness for the amended C2 at a concrete input: page `"a 1"` with
keywords `["a", "b"]`; one match per keyword in order, and the zero-hit
keyword `"b"` gets the synthesized `not_found` match. -/
theorem claim2_witness :
    ((ExtractionEngine.extract [pageA] ["a", "b"] none).match_list.map
        fun m => m.keyword) = ["a", "b"] ∧
    ((ExtractionEngine.extract [pageA] ["a", "b"] none).match_list.filter
        fun m => m.keyword == "b") = [synthNotFound "b"] := by
  have h := claim2_one_match_per_keyword [pageA] ["a", "b"] (by decide) (by decide)
    (by decide) (by decide) (by decide)
  exact ⟨h.1, h.2 "b" (by decide) (by decide)⟩

/-- Counterexample to claim C2 as stated: with the duplicated keyword list
`["a", "a"]` (or the distinct but non-stripped list `["a ", "a"]`) on the
single page `"a 1"`, each keyword occurs on exactly one matched line, yet the
engine returns four (respectively three) matches for the two input keywords
instead of one per keyword: the grouping loop re-emits the whole group for
every occurrence of the keyword in the input list, and a padded keyword
misses the dictionary key (its stripped form) and is synthesized as not-found
while its group is also emitted for the other keyword. -/
theorem claim2_counterexample :
    (ExtractionEngine.extract [pageA] ["a", "a"] none).match_list.length = 4 ∧
    (["a", "a"] : List String).length = 2 ∧
    (∀ k ∈ (["a", "a"] : List String), pageHits (pyStrip k) [pageA] = 1) ∧
    (ExtractionEngine.extract [pageA] ["a ", "a"] none).match_list.length = 3 ∧
    (["a ", "a"] : List String).length = 2 ∧
    (∀ k ∈ (["a ", "a"] : List String), pageHits (pyStrip k) [pageA] = 1) :=
  ⟨by decide, rfl, by decide, by decide, rfl, by decide⟩

/-! ### Helper lemmas for the number-token theorem (C1) -/

theorem firstSome_congr (l : List α) (f g : α → Option β)
    (h : ∀ x ∈ l, f x = g x) : firstSome l f = firstSome l g := by
  induction l with
  | nil => rfl
  | cons a t ih =>
    unfold firstSome
    rw [h a (List.mem_cons_self a t), ih fun x hx => h x (List.mem_cons_of_mem a hx)]

theorem firstSome_map_out (l : List α) (f : α → Option β) (g : β → γ) :
    firstSome l (fun x => (f x).map g) = (firstSome l f).map g := by
  induction l with
  | nil => rfl
  | cons a t ih =>
    unfold firstSome
    cases hfa : f a <;> simp [hfa, ih]

theorem firstSome_map_in (l : List α) (h : α → γ) (f : γ → Option β) :
    firstSome (l.map h) f = firstSome l fun x => f (h x) := by
  induction l with
  | nil => rfl
  | cons a t ih =>
    simp only [List.map_cons]
    unfold firstSome
    cases hfa : f (h a) <;> simp [hfa, ih]

theorem firstSome_append_some (l1 l2 : List α) (f : α → Option β) (b : β)
    (h : firstSome l1 f = some b) : firstSome (l1 ++ l2) f = some b := by
  induction l1 with
  | nil => simp [firstSome] at h
  | cons a t ih =>
    rw [List.cons_append]
    unfold firstSome at h
    show (match f a with | some b => some b | none => firstSome (t ++ l2) f) = some b
    cases hfa : f a <;> rw [hfa] at h <;> simp_all

theorem firstSome_append_none (l1 l2 : List α) (f : α → Option β)
    (h : firstSome l1 f = none) : firstSome (l1 ++ l2) f = firstSome l2 f := by
  induction l1 with
  | nil => rfl
  | cons a t ih =>
    rw [List.cons_append]
    unfold firstSome at h
    show (match f a with | some b => some b | none => firstSome (t ++ l2) f)
      = firstSome l2 f
    cases hfa : f a <;> rw [hfa] at h <;> simp_all

theorem dropWhile_head_not_digit (l : List Char) (c : Char)
    (h : (l.dropWhile Char.isDigit).head? = some c) : c.isDigit = false := by
  induction l with
  | nil => simp [List.dropWhile] at h
  | cons a t ih =>
    rw [List.dropWhile_cons] at h
    by_cases ha : a.isDigit = true
    · rw [if_pos ha] at h
      exact ih h
    · rw [if_neg ha] at h
      simp only [List.head?_cons, Option.some.injEq] at h
      subst h
      simpa using ha

theorem numTokenAtP_shift (pw : Bool) (c : Char) (s : List Char) (i len : Nat) :
    numTokenAtP pw (c :: s) (i + 1) len = numTokenAtP (isWordChar c) s i len := by
  unfold numTokenAtP
  have h1 : (c :: s).drop (i + 1) = s.drop i := List.drop_succ_cons
  have h2 : (c :: s).get? (i + 1 - 1) = (c :: s).get? i := rfl
  have h3 : (c :: s).get? (i + 1 + len) = s.get? (i + len) := by
    rw [Nat.add_right_comm]
    rfl
  rw [h1, h3]
  cases i with
  | zero => rfl
  | succ j => rfl

theorem commaOpts_group (d1 d2 d3 : Char) (rest : List Char)
    (h1 : d1.isDigit = true) (h2 : d2.isDigit = true) (h3 : d3.isDigit = true) :
    commaOpts (',' :: d1 :: d2 :: d3 :: rest)
      = ((commaOpts rest).map fun p => (',' :: d1 :: d2 :: d3 :: p.1, p.2))
        ++ [([], ',' :: d1 :: d2 :: d3 :: rest)] := by
  simp only [commaOpts]
  rw [if_pos (by simp [h1, h2, h3])]

theorem commaOpts_default (u : List Char) (h : isGroupStart u = false) :
    commaOpts u = [([], u)] := by
  unfold commaOpts
  split
  · rename_i d1 d2 d3 rest
    split
    · rename_i hd
      rw [show isGroupStart (',' :: d1 :: d2 :: d3 :: rest)
          = (d1.isDigit && d2.isDigit && d3.isDigit) from rfl] at h
      rw [h] at hd
      cases hd
    · rfl
  · rfl

theorem decOpts_dot (rest : List Char)
    (h : (rest.takeWhile Char.isDigit).isEmpty = false) :
    decOpts ('.' :: rest)
      = [('.' :: rest.takeWhile Char.isDigit, rest.dropWhile Char.isDigit),
          ([], '.' :: rest)] := by
  simp only [decOpts, digitSpan]
  rw [if_neg (by simp [h])]

theorem decOpts_dot_nodigit (rest : List Char)
    (h : (rest.takeWhile Char.isDigit).isEmpty = true) :
    decOpts ('.' :: rest) = [([], '.' :: rest)] := by
  simp only [decOpts, digitSpan]
  rw [if_pos h]

theorem decOpts_default (u : List Char) (h : u.head? ≠ some '.') :
    decOpts u = [([], u)] := by
  unfold decOpts
  split
  · rename_i rest
    simp at h
  · rfl

theorem numTail_group (d1 d2 d3 : Char) (t' : List Char) :
    numTail (',' :: d1 :: d2 :: d3 :: t')
      = (d1.isDigit && d2.isDigit && d3.isDigit && numTail t') := rfl

theorem numTail_inv (t : List Char) (h : numTail t = true) :
    t = [] ∨
    (∃ d1 d2 d3 t', t = ',' :: d1 :: d2 :: d3 :: t' ∧ d1.isDigit = true
      ∧ d2.isDigit = true ∧ d3.isDigit = true ∧ numTail t' = true) ∨
    (∃ r, t = '.' :: r ∧ (r.takeWhile Char.isDigit).isEmpty = false
      ∧ (r.dropWhile Char.isDigit).isEmpty = true) := by
  unfold numTail at h
  split at h
  · left; rfl
  · rename_i d1 d2 d3 t'
    right; left
    simp only [Bool.and_eq_true] at h
    exact ⟨d1, d2, d3, t', rfl, h.1.1.1, h.1.1.2, h.1.2, h.2⟩
  · rename_i r
    right; right
    simp only [Bool.and_eq_true, Bool.not_eq_true'] at h
    exact ⟨r, rfl, h.1, h.2⟩
  · cases h

theorem numTail_dot (r : List Char) :
    numTail ('.' :: r)
      = (!(r.takeWhile Char.isDigit).isEmpty && (r.dropWhile Char.isDigit).isEmpty) := by
  rfl

theorem numTailBoundary_head (l : List Char) : numTailBoundary l = !isWordO l.head? := by
  cases l <;> rfl

theorem take_eq_cons {α : Type} (l : List α) (n : Nat) (a : α) (res : List α)
    (h : l.take n = a :: res) : ∃ m l2, l = a :: l2 ∧ n = m + 1 ∧ l2.take m = res := by
  cases l with
  | nil => simp at h
  | cons x l2 =>
    cases n with
    | zero => simp at h
    | succ m =>
      rw [List.take_succ_cons] at h
      obtain ⟨hx, ht⟩ := List.cons.inj h
      exact ⟨m, l2, by rw [hx], rfl, ht⟩

theorem takeWhile_nil_head (p : Char → Bool) (l : List Char)
    (h : l.takeWhile p = []) (c : Char) (hc : l.head? = some c) : p c = false := by
  cases l with
  | nil => simp at hc
  | cons x t =>
    simp only [List.head?_cons, Option.some.injEq] at hc
    subst hc
    rw [List.takeWhile_cons] at h
    by_cases hp : p x = true
    · rw [if_pos hp] at h
      simp at h
    · simpa using hp

theorem takeWhile_nonempty_head (p : Char → Bool) (l : List Char)
    (h : (l.takeWhile p).isEmpty = false) :
    ∃ c, l.head? = some c ∧ p c = true := by
  cases l with
  | nil => simp [List.takeWhile] at h
  | cons x t =>
    rw [List.takeWhile_cons] at h
    by_cases hp : p x = true
    · exact ⟨x, rfl, hp⟩
    · rw [if_neg hp] at h
      simp at h

theorem take_all_le_takeWhile (p : Char → Bool) (l : List Char) (m : Nat)
    (hm : m ≤ l.length) (h : ∀ c ∈ l.take m, p c = true) :
    m ≤ (l.takeWhile p).length := by
  induction l generalizing m with
  | nil => simpa using hm
  | cons x t ih =>
    cases m with
    | zero => simp
    | succ j =>
      have hx : p x = true := h x (by simp [List.take_succ_cons])
      rw [List.takeWhile_cons, if_pos hx]
      simp only [List.length_cons, Nat.succ_le_succ_iff]
      exact ih j (by simpa using hm) fun c hc =>
        h c (by rw [List.take_succ_cons]; exact List.mem_cons_of_mem x hc)

theorem takeWhile_prefix_get (p : Char → Bool) (l : List Char) (j : Nat)
    (hj : j < (l.takeWhile p).length) :
    ∃ c, l.get? j = some c ∧ p c = true := by
  induction l generalizing j with
  | nil => simp at hj
  | cons x t ih =>
    rw [List.takeWhile_cons] at hj
    by_cases hp : p x = true
    · rw [if_pos hp] at hj
      cases j with
      | zero => exact ⟨x, rfl, hp⟩
      | succ i =>
        simp only [List.length_cons, Nat.succ_lt_succ_iff] at hj
        exact ih i hj
    · rw [if_neg hp] at hj
      simp at hj

theorem validTail_group_iff (d1 d2 d3 : Char) (r t2 : List Char)
    (h1 : d1.isDigit = true) (h2 : d2.isDigit = true) (h3 : d3.isDigit = true) :
    validTail (',' :: d1 :: d2 :: d3 :: r) (',' :: d1 :: d2 :: d3 :: t2)
      ↔ validTail r t2 := by
  unfold validTail
  constructor
  · rintro ⟨ha, hb, hc, hd⟩
    have ha2 : (',' :: d1 :: d2 :: d3 :: r.take t2.length : List Char)
        = ',' :: d1 :: d2 :: d3 :: t2 := ha
    have hb2 : t2.length + 4 ≤ r.length + 4 := by
      have hb3 := hb
      simp only [List.length_cons] at hb3
      omega
    refine ⟨?_, by omega, ?_, hd⟩
    · simpa using ha2
    · rw [numTail_group] at hc
      simpa [h1, h2, h3] using hc
  · rintro ⟨ha, hb, hc, hd⟩
    refine ⟨?_, ?_, ?_, hd⟩
    · show (',' :: d1 :: d2 :: d3 :: r.take t2.length : List Char) = _
      rw [ha]
    · simp only [List.length_cons]
      omega
    · rw [numTail_group]
      simp [h1, h2, h3, hc]

theorem validTail_zero (u : List Char) (hw : isWordO u.head? = false) :
    validTail u [] := by
  refine ⟨rfl, by simp, rfl, ?_⟩
  cases u with
  | nil => simpa using hw
  | cons c t => simpa using hw

theorem validTail_length_le (u t : List Char) (h : validTail u t) :
    t.length ≤ u.length := h.2.1

theorem isGroupStart_inv (l : List Char) (h : isGroupStart l = true) :
    ∃ d1 d2 d3 r, l = ',' :: d1 :: d2 :: d3 :: r ∧ d1.isDigit = true
      ∧ d2.isDigit = true ∧ d3.isDigit = true := by
  unfold isGroupStart at h
  split at h
  · rename_i d1 d2 d3 r
    simp only [Bool.and_eq_true] at h
    exact ⟨d1, d2, d3, r, rfl, h.1.1, h.1.2, h.2⟩
  · cases h

theorem firstSome_cons_some (a : α) (l : List α) (f : α → Option β) (b : β)
    (h : f a = some b) : firstSome (a :: l) f = some b := by
  unfold firstSome
  rw [h]

theorem firstSome_cons_none (a : α) (l : List α) (f : α → Option β)
    (h : f a = none) : firstSome (a :: l) f = firstSome l f := by
  show (match f a with | some b => some b | none => firstSome l f) = firstSome l f
  rw [h]

theorem firstSome_singleton (a : α) (f : α → Option β) :
    firstSome [a] f = f a := by
  cases h : f a with
  | none =>
    rw [firstSome_cons_none a [] f h]
    rfl
  | some b =>
    rw [firstSome_cons_some a [] f b h]

theorem take_length_takeWhile (p : Char → Bool) (l : List Char) :
    l.take (l.takeWhile p).length = l.takeWhile p := by
  induction l with
  | nil => rfl
  | cons x t ih =>
    rw [List.takeWhile_cons]
    by_cases hp : p x = true
    · rw [if_pos hp]
      simp only [List.length_cons, List.take_succ_cons]
      rw [ih]
    · rw [if_neg hp]
      rfl

theorem length_takeWhile_le_self (p : Char → Bool) (l : List Char) :
    (l.takeWhile p).length ≤ l.length := by
  induction l with
  | nil => simp
  | cons x t ih =>
    rw [List.takeWhile_cons]
    by_cases hp : p x = true
    · rw [if_pos hp]
      simpa using ih
    · rw [if_neg hp]
      simp

theorem takeWhile_self_again (p : Char → Bool) (l : List Char) :
    (l.takeWhile p).takeWhile p = l.takeWhile p := by
  induction l with
  | nil => rfl
  | cons x t ih =>
    rw [List.takeWhile_cons]
    by_cases hp : p x = true
    · rw [if_pos hp, List.takeWhile_cons, if_pos hp, ih]
    · rw [if_neg hp]
      rfl

theorem dropWhile_takeWhile_nil (p : Char → Bool) (l : List Char) :
    (l.takeWhile p).dropWhile p = [] := by
  induction l with
  | nil => rfl
  | cons x t ih =>
    rw [List.takeWhile_cons]
    by_cases hp : p x = true
    · rw [if_pos hp, List.dropWhile_cons, if_pos hp, ih]
    · rw [if_neg hp]
      rfl

theorem takeWhile_append_dropWhile_self (p : Char → Bool) (l : List Char) :
    l.takeWhile p ++ l.dropWhile p = l := by
  induction l with
  | nil => rfl
  | cons x t ih =>
    rw [List.takeWhile_cons, List.dropWhile_cons]
    by_cases hp : p x = true
    · rw [if_pos hp, if_pos hp]
      simp only [List.cons_append, ih]
    · rw [if_neg hp, if_neg hp]
      rfl

theorem get_append_self_length {α : Type} (l1 l2 : List α) :
    (l1 ++ l2).get? l1.length = l2.head? := by
  induction l1 with
  | nil => cases l2 <;> rfl
  | cons x t ih => exact ih

theorem takeWhile_get_within (p : Char → Bool) (l : List Char) (j : Nat)
    (hj : j < (l.takeWhile p).length) :
    ∃ c, l.get? j = some c ∧ p c = true := by
  induction l generalizing j with
  | nil => simp at hj
  | cons x t ih =>
    rw [List.takeWhile_cons] at hj
    by_cases hp : p x = true
    · rw [if_pos hp] at hj
      cases j with
      | zero => exact ⟨x, rfl, hp⟩
      | succ i =>
        simp only [List.length_cons, Nat.succ_lt_succ_iff] at hj
        exact ih i hj
    · rw [if_neg hp] at hj
      simp at hj

theorem digit_isWordChar (c : Char) (h : c.isDigit = true) :
    isWordChar c = true := by
  simp [isWordChar, h]

/-- Every nonempty valid tail starts with a full `,ddd` group or a decimal
point, and forces the same shape on the haystack. -/
theorem validTail_cons_shape (u t2 : List Char) (hv : validTail u t2)
    (hne : t2 ≠ []) :
    (∃ e1 e2 e3 t3 r2, u = ',' :: e1 :: e2 :: e3 :: r2
      ∧ t2 = ',' :: e1 :: e2 :: e3 :: t3
      ∧ e1.isDigit = true ∧ e2.isDigit = true ∧ e3.isDigit = true
      ∧ validTail r2 t3)
    ∨ (∃ r3 u2, u = '.' :: u2 ∧ t2 = '.' :: r3
      ∧ u2.take r3.length = r3 ∧ r3.length ≤ u2.length
      ∧ (r3.takeWhile Char.isDigit).isEmpty = false
      ∧ (r3.dropWhile Char.isDigit).isEmpty = true
      ∧ isWordO (u2.get? r3.length) = false) := by
  obtain ⟨ha, hb, hc, hd⟩ := hv
  rcases numTail_inv t2 hc with h0
    | ⟨e1, e2, e3, t3, hsh, he1, he2, he3, hnt⟩
    | ⟨r3, hsh, htw, hdw⟩
  · exact absurd h0 hne
  · left
    subst hsh
    obtain ⟨m1, v1, hu1, hm1, hTake1⟩ := take_eq_cons u _ ',' _ ha
    obtain ⟨m2, v2, hv1, hm2, hTake2⟩ := take_eq_cons v1 _ e1 _ hTake1
    obtain ⟨m3, v3, hv2, hm3, hTake3⟩ := take_eq_cons v2 _ e2 _ hTake2
    obtain ⟨m4, v4, hv3, hm4, hTake4⟩ := take_eq_cons v3 _ e3 _ hTake3
    have hu : u = ',' :: e1 :: e2 :: e3 :: v4 := by rw [hu1, hv1, hv2, hv3]
    have hm : m4 = t3.length := by
      have hlen : (',' :: e1 :: e2 :: e3 :: t3 : List Char).length
          = t3.length + 4 := by simp
      omega
    rw [hm] at hTake4
    have hvt : validTail v4 t3 := by
      refine ⟨hTake4, ?_, hnt, ?_⟩
      · have hb2 := hb
        rw [hu] at hb2
        simp only [List.length_cons] at hb2
        omega
      · have hd2 := hd
        rw [hu] at hd2
        exact hd2
    exact ⟨e1, e2, e3, t3, v4, hu, rfl, he1, he2, he3, hvt⟩
  · right
    subst hsh
    obtain ⟨m1, u2, hu1, hm1, hTake1⟩ := take_eq_cons u _ '.' _ ha
    have hm : m1 = r3.length := by
      have : ('.' :: r3 : List Char).length = r3.length + 1 := by simp
      omega
    rw [hm] at hTake1
    refine ⟨r3, u2, hu1, rfl, hTake1, ?_, htw, hdw, ?_⟩
    · have hb2 := hb
      rw [hu1] at hb2
      simp only [List.length_cons] at hb2
      omega
    · have hd2 := hd
      rw [hu1] at hd2
      exact hd2

/-! ### Evaluation of `tailSearch` by head shape -/

theorem tailSearch_nil : tailSearch [] = some [] := rfl

theorem tailSearch_default (c : Char) (u1 : List Char)
    (hgs : isGroupStart (c :: u1) = false) (hc : c ≠ '.') :
    tailSearch (c :: u1) = if isWordChar c = true then none else some [] := by
  have h1 : commaOpts (c :: u1) = [([], c :: u1)] := commaOpts_default _ hgs
  have h2 : decOpts (c :: u1) = [([], c :: u1)] := decOpts_default _ (by simp [hc])
  unfold tailSearch
  rw [h1, firstSome_singleton]
  unfold decSearch
  rw [h2, firstSome_singleton]
  by_cases hw : isWordChar c = true
  · rw [if_pos hw]
    rw [show numTailBoundary (c :: u1) = false from by
      rw [numTailBoundary_head]
      simp only [List.head?_cons, isWordO]
      rw [hw]
      rfl]
    rfl
  · rw [if_neg hw]
    rw [show numTailBoundary (c :: u1) = true from by
      rw [numTailBoundary_head]
      simp only [List.head?_cons, isWordO]
      rw [Bool.eq_false_iff.mpr hw]
      rfl]
    rfl

theorem tailSearch_dot_nodigit (u1 : List Char)
    (h : (u1.takeWhile Char.isDigit).isEmpty = true) :
    tailSearch ('.' :: u1) = some [] := by
  have h1 : commaOpts ('.' :: u1) = [([], '.' :: u1)] := commaOpts_default _ rfl
  have h2 := decOpts_dot_nodigit u1 h
  unfold tailSearch
  rw [h1, firstSome_singleton]
  unfold decSearch
  rw [h2, firstSome_singleton]
  rw [show numTailBoundary ('.' :: u1) = true from rfl]
  rfl

theorem tailSearch_dot_digit (u1 : List Char)
    (h : (u1.takeWhile Char.isDigit).isEmpty = false) :
    tailSearch ('.' :: u1)
      = if numTailBoundary (u1.dropWhile Char.isDigit) = true
        then some ('.' :: u1.takeWhile Char.isDigit)
        else some [] := by
  have h1 : commaOpts ('.' :: u1) = [([], '.' :: u1)] := commaOpts_default _ rfl
  unfold tailSearch
  rw [h1, firstSome_singleton]
  unfold decSearch
  rw [decOpts_dot u1 h]
  by_cases hb2 : numTailBoundary (u1.dropWhile Char.isDigit) = true
  · rw [if_pos hb2]
    rw [firstSome_cons_some _ _ _ ('.' :: u1.takeWhile Char.isDigit)
      (by rw [if_pos hb2])]
    rfl
  · rw [if_neg hb2]
    rw [firstSome_cons_none _ _ _ (by rw [if_neg hb2])]
    rw [firstSome_singleton]
    rw [show numTailBoundary ('.' :: u1) = true from rfl]
    rfl

theorem tailSearch_group (d1 d2 d3 : Char) (r : List Char)
    (h1 : d1.isDigit = true) (h2 : d2.isDigit = true) (h3 : d3.isDigit = true) :
    tailSearch (',' :: d1 :: d2 :: d3 :: r)
      = match tailSearch r with
        | some t' => some (',' :: d1 :: d2 :: d3 :: t')
        | none => some [] := by
  have hmap : firstSome ((commaOpts r).map fun p => (',' :: d1 :: d2 :: d3 :: p.1, p.2))
      (fun cp => (decSearch cp.2).map fun t => cp.1 ++ t)
      = (firstSome (commaOpts r) fun cp => (decSearch cp.2).map fun t => cp.1 ++ t).map
          (fun t => ',' :: d1 :: d2 :: d3 :: t) := by
    rw [firstSome_map_in]
    rw [firstSome_congr _ _ (fun p => ((decSearch p.2).map fun t => p.1 ++ t).map
        fun t => ',' :: d1 :: d2 :: d3 :: t) ?_]
    · exact firstSome_map_out _ _ _
    · intro p _
      cases hd : decSearch p.2 <;> simp [hd]
  have hlast : (fun cp => (decSearch cp.2).map fun t => cp.1 ++ t)
      (([] : List Char), ',' :: d1 :: d2 :: d3 :: r) = some [] := by
    show (decSearch (',' :: d1 :: d2 :: d3 :: r)).map (fun t => [] ++ t) = some []
    unfold decSearch
    rw [decOpts_default _ (by simp), firstSome_singleton]
    rw [show numTailBoundary (',' :: d1 :: d2 :: d3 :: r) = true from rfl]
    rfl
  unfold tailSearch
  rw [commaOpts_group d1 d2 d3 r h1 h2 h3]
  cases hts : firstSome (commaOpts r) fun cp => (decSearch cp.2).map fun t => cp.1 ++ t with
  | some t' =>
    have hsome : firstSome ((commaOpts r).map fun p => (',' :: d1 :: d2 :: d3 :: p.1, p.2))
        (fun cp => (decSearch cp.2).map fun t => cp.1 ++ t)
        = some (',' :: d1 :: d2 :: d3 :: t') := by
      rw [hmap, hts]
      rfl
    rw [firstSome_append_some _ _ _ _ hsome]
  | none =>
    have hnone : firstSome ((commaOpts r).map fun p => (',' :: d1 :: d2 :: d3 :: p.1, p.2))
        (fun cp => (decSearch cp.2).map fun t => cp.1 ++ t) = none := by
      rw [hmap, hts]
      rfl
    rw [firstSome_append_none _ _ _ hnone, firstSome_singleton]
    exact hlast

/-- `tailSearch` is a decision procedure for the longest valid tail: when it
returns a tail, it is valid and maximal; when it returns nothing, no valid
tail exists. -/
theorem tailSearch_spec (n : Nat) : ∀ u : List Char, u.length ≤ n →
    (∀ t, tailSearch u = some t →
      validTail u t ∧ ∀ t2, validTail u t2 → t2.length ≤ t.length) ∧
    (tailSearch u = none → ∀ t2, ¬ validTail u t2) := by
  induction n with
  | zero =>
    intro u hu
    have hu0 : u = [] := List.length_eq_zero.mp (Nat.le_zero.mp hu)
    subst hu0
    constructor
    · intro t ht
      rw [tailSearch_nil] at ht
      obtain rfl : ([] : List Char) = t := Option.some.inj ht
      refine ⟨validTail_zero [] rfl, ?_⟩
      intro t2 h2
      have := validTail_length_le [] t2 h2
      simpa using this
    · intro h
      rw [tailSearch_nil] at h
      exact Option.noConfusion h
  | succ n ih =>
    intro u hu
    cases u with
    | nil =>
      constructor
      · intro t ht
        rw [tailSearch_nil] at ht
        obtain rfl : ([] : List Char) = t := Option.some.inj ht
        refine ⟨validTail_zero [] rfl, ?_⟩
        intro t2 h2
        have := validTail_length_le [] t2 h2
        simpa using this
      · intro h
        rw [tailSearch_nil] at h
        exact Option.noConfusion h
    | cons c u1 =>
      by_cases hgs : isGroupStart (c :: u1) = true
      · obtain ⟨d1, d2, d3, r, heq, h1, h2, h3⟩ := isGroupStart_inv _ hgs
        rw [heq] at hu ⊢
        have hr : r.length ≤ n := by
          simp only [List.length_cons] at hu
          omega
        have ihr := ih r hr
        have hts := tailSearch_group d1 d2 d3 r h1 h2 h3
        constructor
        · intro t ht
          rw [hts] at ht
          cases htr : tailSearch r with
          | some t' =>
            rw [htr] at ht
            obtain rfl : (',' :: d1 :: d2 :: d3 :: t' : List Char) = t :=
              Option.some.inj ht
            obtain ⟨hval, hmax⟩ := ihr.1 t' htr
            constructor
            · exact (validTail_group_iff d1 d2 d3 r t' h1 h2 h3).mpr hval
            · intro t2 h2'
              by_cases ht2 : t2 = []
              · subst ht2
                simp
              · rcases validTail_cons_shape _ _ h2' ht2 with
                  ⟨e1, e2, e3, t3, r2, hu', ht2', he1, he2, he3, hvt⟩
                  | ⟨r3, u2, hu', _⟩
                · obtain ⟨hc1, hrest⟩ := List.cons.inj hu'
                  obtain ⟨hd1, hrest2⟩ := List.cons.inj hrest
                  obtain ⟨hd2, hrest3⟩ := List.cons.inj hrest2
                  obtain ⟨hd3, hr'⟩ := List.cons.inj hrest3
                  rw [← hr'] at hvt
                  have hle := hmax t3 hvt
                  rw [ht2']
                  simp only [List.length_cons]
                  omega
                · obtain ⟨hc1, _⟩ := List.cons.inj hu'
                  exact absurd hc1 (by decide)
          | none =>
            rw [htr] at ht
            obtain rfl : ([] : List Char) = t := Option.some.inj ht
            refine ⟨validTail_zero _ (by simp only [List.head?_cons, isWordO]; decide), ?_⟩
            intro t2 h2'
            by_cases ht2 : t2 = []
            · subst ht2
              simp
            · exfalso
              rcases validTail_cons_shape _ _ h2' ht2 with
                ⟨e1, e2, e3, t3, r2, hu', ht2', he1, he2, he3, hvt⟩
                | ⟨r3, u2, hu', _⟩
              · obtain ⟨hc1, hrest⟩ := List.cons.inj hu'
                obtain ⟨hd1, hrest2⟩ := List.cons.inj hrest
                obtain ⟨hd2, hrest3⟩ := List.cons.inj hrest2
                obtain ⟨hd3, hr'⟩ := List.cons.inj hrest3
                rw [← hr'] at hvt
                exact ihr.2 htr t3 hvt
              · obtain ⟨hc1, _⟩ := List.cons.inj hu'
                exact absurd hc1 (by decide)
        · intro ht
          rw [hts] at ht
          cases htr : tailSearch r with
          | some t' =>
            rw [htr] at ht
            exact Option.noConfusion ht
          | none =>
            rw [htr] at ht
            exact Option.noConfusion ht
      · by_cases hdot : c = '.'
        · subst hdot
          have hsplit : u1.get? (u1.takeWhile Char.isDigit).length
              = (u1.dropWhile Char.isDigit).head? := by
            have h := get_append_self_length (u1.takeWhile Char.isDigit)
              (u1.dropWhile Char.isDigit)
            rw [takeWhile_append_dropWhile_self] at h
            exact h
          by_cases hdig : (u1.takeWhile Char.isDigit).isEmpty = true
          · have hts := tailSearch_dot_nodigit u1 hdig
            constructor
            · intro t ht
              rw [hts] at ht
              obtain rfl : ([] : List Char) = t := Option.some.inj ht
              refine ⟨validTail_zero _ (by simp only [List.head?_cons, isWordO]; decide), ?_⟩
              intro t2 h2'
              by_cases ht2 : t2 = []
              · subst ht2
                simp
              · exfalso
                rcases validTail_cons_shape _ _ h2' ht2 with
                  ⟨e1, e2, e3, t3, r2, hu', _⟩
                  | ⟨r3, u2, hu', ht2', hpre, hlen, htw3, hdw3, hbd3⟩
                · obtain ⟨hc1, _⟩ := List.cons.inj hu'
                  exact absurd hc1 (by decide)
                · obtain ⟨_, hu1'⟩ := List.cons.inj hu'
                  subst hu1'
                  obtain ⟨ch, hch, hchd⟩ := takeWhile_nonempty_head _ _ htw3
                  cases r3 with
                  | nil => simp at hch
                  | cons ch0 rr =>
                    simp only [List.head?_cons, Option.some.injEq] at hch
                    subst hch
                    obtain ⟨m0, u20, hu20, _, _⟩ :=
                      take_eq_cons u1 _ ch0 _ hpre
                    have hh : u1.head? = some ch0 := by rw [hu20]; rfl
                    have := takeWhile_nil_head Char.isDigit u1
                      (List.isEmpty_iff.mp hdig) ch0 hh
                    rw [hchd] at this
                    exact Bool.noConfusion this
            · intro ht
              rw [hts] at ht
              exact Option.noConfusion ht
          · have hdig' : (u1.takeWhile Char.isDigit).isEmpty = false :=
              Bool.eq_false_iff.mpr hdig
            have hts := tailSearch_dot_digit u1 hdig'
            by_cases hb2 : numTailBoundary (u1.dropWhile Char.isDigit) = true
            · rw [if_pos hb2] at hts
              constructor
              · intro t ht
                rw [hts] at ht
                obtain rfl : ('.' :: u1.takeWhile Char.isDigit : List Char) = t :=
                  Option.some.inj ht
                constructor
                · refine ⟨?_, ?_, ?_, ?_⟩
                  · show ('.' :: u1.take (u1.takeWhile Char.isDigit).length : List Char)
                      = '.' :: u1.takeWhile Char.isDigit
                    rw [take_length_takeWhile]
                  · simp only [List.length_cons]
                    exact Nat.succ_le_succ (length_takeWhile_le_self _ _)
                  · rw [numTail_dot, takeWhile_self_again, dropWhile_takeWhile_nil]
                    simp [hdig']
                  · show isWordO (u1.get? (u1.takeWhile Char.isDigit).length) = false
                    rw [hsplit]
                    rw [numTailBoundary_head] at hb2
                    simpa using hb2
                · intro t2 h2'
                  by_cases ht2 : t2 = []
                  · subst ht2
                    simp
                  · rcases validTail_cons_shape _ _ h2' ht2 with
                      ⟨e1, e2, e3, t3, r2, hu', _⟩
                      | ⟨r3, u2, hu', ht2', hpre, hlen, htw3, hdw3, hbd3⟩
                    · obtain ⟨hc1, _⟩ := List.cons.inj hu'
                      exact absurd hc1 (by decide)
                    · obtain ⟨_, hu1'⟩ := List.cons.inj hu'
                      subst hu1'
                      have hall : ∀ ch ∈ r3, Char.isDigit ch = true := by
                        have hnil := List.isEmpty_iff.mp hdw3
                        exact fun ch hch => List.dropWhile_eq_nil_iff.mp hnil ch hch
                      have hr3 : r3.length ≤ (u1.takeWhile Char.isDigit).length :=
                        take_all_le_takeWhile _ u1 r3.length hlen
                          (by rw [hpre]; exact hall)
                      rw [ht2']
                      simp only [List.length_cons]
                      omega
              · intro ht
                rw [hts] at ht
                exact Option.noConfusion ht
            · rw [if_neg hb2] at hts
              have hw : isWordO ((u1.dropWhile Char.isDigit).head?) = true := by
                rw [numTailBoundary_head] at hb2
                simpa using hb2
              constructor
              · intro t ht
                rw [hts] at ht
                obtain rfl : ([] : List Char) = t := Option.some.inj ht
                refine ⟨validTail_zero _ (by simp only [List.head?_cons, isWordO]; decide), ?_⟩
                intro t2 h2'
                by_cases ht2 : t2 = []
                · subst ht2
                  simp
                · exfalso
                  rcases validTail_cons_shape _ _ h2' ht2 with
                    ⟨e1, e2, e3, t3, r2, hu', _⟩
                    | ⟨r3, u2, hu', ht2', hpre, hlen, htw3, hdw3, hbd3⟩
                  · obtain ⟨hc1, _⟩ := List.cons.inj hu'
                    exact absurd hc1 (by decide)
                  · obtain ⟨_, hu1'⟩ := List.cons.inj hu'
                    subst hu1'
                    have hall : ∀ ch ∈ r3, Char.isDigit ch = true := by
                      have hnil := List.isEmpty_iff.mp hdw3
                      exact fun ch hch => List.dropWhile_eq_nil_iff.mp hnil ch hch
                    have hr3 : r3.length ≤ (u1.takeWhile Char.isDigit).length :=
                      take_all_le_takeWhile _ u1 r3.length hlen
                        (by rw [hpre]; exact hall)
                    rcases Nat.lt_or_ge r3.length (u1.takeWhile Char.isDigit).length
                      with hlt | hge
                    · obtain ⟨ch, hch, hchd⟩ :=
                        takeWhile_get_within Char.isDigit u1 r3.length hlt
                      rw [hch] at hbd3
                      have hbd4 : isWordChar ch = false := hbd3
                      rw [digit_isWordChar ch hchd] at hbd4
                      exact Bool.noConfusion hbd4
                    · have heq2 : r3.length = (u1.takeWhile Char.isDigit).length :=
                        Nat.le_antisymm hr3 hge
                      rw [heq2, hsplit, hw] at hbd3
                      exact Bool.noConfusion hbd3
              · intro ht
                rw [hts] at ht
                exact Option.noConfusion ht
        · have hts := tailSearch_default c u1 (Bool.eq_false_iff.mpr hgs) hdot
          by_cases hw : isWordChar c = true
          · rw [if_pos hw] at hts
            constructor
            · intro t ht
              rw [hts] at ht
              exact Option.noConfusion ht
            · intro _ t2 h2'
              by_cases ht2 : t2 = []
              · subst ht2
                have hx : isWordChar c = false := h2'.2.2.2
                rw [hw] at hx
                exact Bool.noConfusion hx
              · rcases validTail_cons_shape _ _ h2' ht2 with
                  ⟨e1, e2, e3, t3, r2, hu', _⟩ | ⟨r3, u2, hu', _⟩
                · obtain ⟨hc1, _⟩ := List.cons.inj hu'
                  subst hc1
                  exact absurd hw (by decide)
                · obtain ⟨hc1, _⟩ := List.cons.inj hu'
                  subst hc1
                  exact absurd hw (by decide)
          · rw [if_neg hw] at hts
            have hw' : isWordChar c = false := Bool.eq_false_iff.mpr hw
            constructor
            · intro t ht
              rw [hts] at ht
              obtain rfl : ([] : List Char) = t := Option.some.inj ht
              refine ⟨validTail_zero _ hw', ?_⟩
              intro t2 h2'
              by_cases ht2 : t2 = []
              · subst ht2
                simp
              · exfalso
                rcases validTail_cons_shape _ _ h2' ht2 with
                  ⟨e1, e2, e3, t3, r2, hu', ht2', he1, he2, he3, hvt⟩
                  | ⟨r3, u2, hu', _⟩
                · obtain ⟨hc1, hrest⟩ := List.cons.inj hu'
                  subst hc1
                  rw [hrest] at hgs
                  exact hgs (by
                    rw [show isGroupStart (',' :: e1 :: e2 :: e3 :: r2 : List Char)
                        = (e1.isDigit && e2.isDigit && e3.isDigit) from rfl]
                    rw [he1, he2, he3]
                    rfl)
                · obtain ⟨hc1, _⟩ := List.cons.inj hu'
                  exact hdot hc1
            · intro ht
              rw [hts] at ht
              exact Option.noConfusion ht

/-! ### Evaluation of `tryNumberAt` through `tailSearch` -/

theorem tailSearch_digit_head (d : Char) (v : List Char) (hd : d.isDigit = true) :
    tailSearch (d :: v) = none := by
  have hgs : isGroupStart (d :: v) = false := by
    by_cases hg : isGroupStart (d :: v) = true
    · obtain ⟨d1, d2, d3, r, heq, _⟩ := isGroupStart_inv _ hg
      obtain ⟨hc1, _⟩ := List.cons.inj heq
      rw [hc1] at hd
      exact absurd hd (by decide)
    · exact Bool.eq_false_iff.mpr hg
  have hne2 : d ≠ '.' := by
    intro he
    rw [he] at hd
    exact absurd hd (by decide)
  rw [tailSearch_default d v hgs hne2, if_pos (digit_isWordChar d hd)]

theorem tryWithK_eq (ds rest : List Char) (k : Nat) :
    tryWithK ds rest k
      = (tailSearch (ds.drop k ++ rest)).map fun t => ds.take k ++ t := by
  show (firstSome (commaOpts (ds.drop k ++ rest)) fun cp =>
      firstSome (decOpts cp.2) fun dp =>
        if numTailBoundary dp.2 = true then some (ds.take k ++ cp.1 ++ dp.1) else none)
    = (tailSearch (ds.drop k ++ rest)).map fun t => ds.take k ++ t
  unfold tailSearch
  rw [← firstSome_map_out]
  apply firstSome_congr
  intro cp _
  unfold decSearch
  rw [Option.map_map, ← firstSome_map_out]
  apply firstSome_congr
  intro dp _
  by_cases hb : numTailBoundary dp.2 = true
  · simp [hb, List.append_assoc]
  · simp [hb]

theorem tryWithK_small (l : List Char) (k : Nat)
    (hk : k < (l.takeWhile Char.isDigit).length) :
    tryWithK (l.takeWhile Char.isDigit) (l.dropWhile Char.isDigit) k = none := by
  rw [tryWithK_eq]
  cases hdk : (l.takeWhile Char.isDigit).drop k with
  | nil =>
    have hlen := congrArg List.length hdk
    simp only [List.length_drop, List.length_nil] at hlen
    omega
  | cons ch rr =>
    have hmem : ch ∈ (l.takeWhile Char.isDigit).drop k := by
      rw [hdk]
      exact List.mem_cons_self ch rr
    have hch := List.mem_takeWhile_imp (List.mem_of_mem_drop hmem)
    rw [List.cons_append, tailSearch_digit_head ch _ hch]
    rfl

theorem head_take (l : List Char) (j : Nat) (hj : 1 ≤ j) :
    (l.take j).head? = l.head? := by
  cases l with
  | nil => simp
  | cons x t =>
    cases j with
    | zero => omega
    | succ i => rfl

theorem tryNumberAt_eq (l : List Char)
    (h1 : 1 ≤ (l.takeWhile Char.isDigit).length)
    (h3 : (l.takeWhile Char.isDigit).length ≤ 3) :
    tryNumberAt l = (tailSearch (l.dropWhile Char.isDigit)).map
      fun t => l.takeWhile Char.isDigit ++ t := by
  have hne : (l.takeWhile Char.isDigit).isEmpty = false := by
    cases hq : l.takeWhile Char.isDigit with
    | nil => rw [hq] at h1; simp at h1
    | cons a b => rfl
  show (if (l.takeWhile Char.isDigit).isEmpty = true then none
      else firstSome ((List.range (min 3 (l.takeWhile Char.isDigit).length)).map
          fun j => min 3 (l.takeWhile Char.isDigit).length - j)
        (tryWithK (l.takeWhile Char.isDigit) (l.dropWhile Char.isDigit)))
    = (tailSearch (l.dropWhile Char.isDigit)).map fun t => l.takeWhile Char.isDigit ++ t
  rw [if_neg (by simp [hne])]
  have hk0 : min 3 (l.takeWhile Char.isDigit).length
      = (l.takeWhile Char.isDigit).length := Nat.min_eq_right h3
  rw [hk0]
  have hfull : tryWithK (l.takeWhile Char.isDigit) (l.dropWhile Char.isDigit)
      (l.takeWhile Char.isDigit).length
      = (tailSearch (l.dropWhile Char.isDigit)).map
          fun t => l.takeWhile Char.isDigit ++ t := by
    rw [tryWithK_eq, List.drop_length, List.take_length]
    rfl
  have hm : (l.takeWhile Char.isDigit).length = 1
      ∨ (l.takeWhile Char.isDigit).length = 2
      ∨ (l.takeWhile Char.isDigit).length = 3 := by omega
  rcases hm with hm | hm | hm
  · rw [hm] at hfull ⊢
    rw [show ((List.range 1).map fun j => 1 - j) = [1] from by rfl]
    rw [firstSome_singleton, hfull]
  · rw [hm] at hfull ⊢
    rw [show ((List.range 2).map fun j => 2 - j) = [2, 1] from by rfl]
    cases hdw : tailSearch (l.dropWhile Char.isDigit) with
    | some t0 =>
      rw [firstSome_cons_some _ _ _ (l.takeWhile Char.isDigit ++ t0)
        (by rw [hfull, hdw]; rfl)]
      rfl
    | none =>
      rw [firstSome_cons_none _ _ _ (by rw [hfull, hdw]; rfl)]
      rw [firstSome_singleton, tryWithK_small l 1 (by omega)]
      rfl
  · rw [hm] at hfull ⊢
    rw [show ((List.range 3).map fun j => 3 - j) = [3, 2, 1] from by rfl]
    cases hdw : tailSearch (l.dropWhile Char.isDigit) with
    | some t0 =>
      rw [firstSome_cons_some _ _ _ (l.takeWhile Char.isDigit ++ t0)
        (by rw [hfull, hdw]; rfl)]
      rfl
    | none =>
      rw [firstSome_cons_none _ _ _ (by rw [hfull, hdw]; rfl)]
      rw [firstSome_cons_none _ _ _ (tryWithK_small l 2 (by omega))]
      rw [firstSome_singleton, tryWithK_small l 1 (by omega)]
      rfl

theorem tryNumberAt_big (l : List Char)
    (h : 4 ≤ (l.takeWhile Char.isDigit).length) :
    tryNumberAt l = none := by
  have hne : (l.takeWhile Char.isDigit).isEmpty = false := by
    cases hq : l.takeWhile Char.isDigit with
    | nil => rw [hq] at h; simp at h
    | cons a b => rfl
  show (if (l.takeWhile Char.isDigit).isEmpty = true then none
      else firstSome ((List.range (min 3 (l.takeWhile Char.isDigit).length)).map
          fun j => min 3 (l.takeWhile Char.isDigit).length - j)
        (tryWithK (l.takeWhile Char.isDigit) (l.dropWhile Char.isDigit)))
    = none
  rw [if_neg (by simp [hne])]
  have hk0 : min 3 (l.takeWhile Char.isDigit).length = 3 :=
    Nat.min_eq_left (by omega)
  rw [hk0]
  rw [show ((List.range 3).map fun j => 3 - j) = [3, 2, 1] from by rfl]
  rw [firstSome_cons_none _ _ _ (tryWithK_small l 3 (by omega))]
  rw [firstSome_cons_none _ _ _ (tryWithK_small l 2 (by omega))]
  rw [firstSome_singleton]
  exact tryWithK_small l 1 (by omega)

/-! ### Bridge between tokens at position 0 and `validTail` -/

theorem get_append_within {α : Type} (l1 l2 : List α) (j : Nat) (hj : j < l1.length) :
    (l1 ++ l2).get? j = l1.get? j := by
  induction l1 generalizing j with
  | nil => simp at hj
  | cons x t ih =>
    cases j with
    | zero => rfl
    | succ i =>
      simp only [List.length_cons, Nat.succ_lt_succ_iff] at hj
      exact ih i hj

theorem get_some_mem {α : Type} (l : List α) (j : Nat) (hj : j < l.length) :
    ∃ c, l.get? j = some c ∧ c ∈ l := by
  induction l generalizing j with
  | nil => simp at hj
  | cons x t ih =>
    cases j with
    | zero => exact ⟨x, rfl, List.mem_cons_self x t⟩
    | succ i =>
      simp only [List.length_cons, Nat.succ_lt_succ_iff] at hj
      obtain ⟨c, hc, hm⟩ := ih i hj
      exact ⟨c, hc, List.mem_cons_of_mem x hm⟩

theorem take_append_self {α : Type} (l1 l2 : List α) :
    (l1 ++ l2).take l1.length = l1 := by
  induction l1 with
  | nil => rfl
  | cons x t ih =>
    rw [List.cons_append]
    simp only [List.length_cons, List.take_succ_cons]
    rw [ih]

theorem take_append_add {α : Type} (l1 l2 : List α) (j : Nat) :
    (l1 ++ l2).take (l1.length + j) = l1 ++ l2.take j := by
  induction l1 with
  | nil => simp
  | cons x t ih =>
    simp only [List.cons_append, List.length_cons]
    rw [Nat.add_right_comm, List.take_succ_cons, ih]

theorem get_append_add {α : Type} (l1 l2 : List α) (j : Nat) :
    (l1 ++ l2).get? (l1.length + j) = l2.get? j := by
  induction l1 with
  | nil => simp
  | cons x t ih =>
    simp only [List.cons_append, List.length_cons]
    rw [Nat.add_right_comm]
    exact ih

theorem takeWhile_all_self (p : Char → Bool) (l : List Char)
    (h : ∀ c ∈ l, p c = true) : l.takeWhile p = l := by
  induction l with
  | nil => rfl
  | cons x t ih =>
    rw [List.takeWhile_cons, if_pos (h x (List.mem_cons_self x t)),
      ih fun c hc => h c (List.mem_cons_of_mem x hc)]

theorem takeWhile_append_nondigit (p : Char → Bool) (a b : List Char)
    (ha : ∀ c ∈ a, p c = true) (hb : ∀ c, b.head? = some c → p c = false) :
    (a ++ b).takeWhile p = a ∧ (a ++ b).dropWhile p = b := by
  induction a with
  | nil =>
    cases b with
    | nil => exact ⟨rfl, rfl⟩
    | cons c bs =>
      rw [List.nil_append]
      constructor
      · rw [List.takeWhile_cons, if_neg (by simp [hb c rfl])]
      · rw [List.dropWhile_cons, if_neg (by simp [hb c rfl])]
  | cons x t ih =>
    have hx := ha x (List.mem_cons_self x t)
    obtain ⟨ih1, ih2⟩ := ih fun c hc => ha c (List.mem_cons_of_mem x hc)
    constructor
    · rw [List.cons_append, List.takeWhile_cons, if_pos hx, ih1]
    · rw [List.cons_append, List.dropWhile_cons, if_pos hx, ih2]

theorem numTokenAtP_nil (pw : Bool) (i len : Nat) :
    numTokenAtP pw [] i len = false := by
  apply Bool.eq_false_iff.mpr
  intro hcon
  unfold numTokenAtP at hcon
  simp only [List.drop_nil, List.take_nil, List.length_nil, Bool.and_eq_true,
    decide_eq_true_eq] at hcon
  omega

theorem numTokenAtP_len_le (pw : Bool) (s : List Char) (i len : Nat)
    (h : numTokenAtP pw s i len = true) : len ≤ s.length := by
  unfold numTokenAtP at h
  simp only [Bool.and_eq_true, decide_eq_true_eq] at h
  have h0 := h.1.1.1.1
  rw [List.length_take, List.length_drop] at h0
  omega

/-- A number token at position 0 of `a ++ b`, where `a` is a digit run and
`b` starts with a non-digit, is exactly the whole of `a` (1 to 3 digits)
followed by a valid tail of `b`. -/
theorem numTokenAtZero_ab (pw : Bool) (a b : List Char)
    (ha : ∀ c ∈ a, Char.isDigit c = true)
    (hb : ∀ c, b.head? = some c → Char.isDigit c = false) (len : Nat) :
    numTokenAtP pw (a ++ b) 0 len = true ↔
      (pw = false ∧ 1 ≤ a.length ∧ a.length ≤ 3
        ∧ ∃ t, validTail b t ∧ len = a.length + t.length) := by
  unfold numTokenAtP
  rw [if_pos rfl]
  simp only [List.drop_zero, Nat.zero_add, Bool.and_eq_true, decide_eq_true_eq,
    Bool.not_eq_true']
  constructor
  · rintro ⟨⟨⟨⟨h0, h1⟩, h2⟩, h3⟩, h4⟩
    have hlen_le : len ≤ a.length + b.length := by
      rw [List.length_take, List.length_append] at h0
      omega
    refine ⟨h3, ?_⟩
    by_cases hlt : len < a.length
    · exfalso
      obtain ⟨c0, hc0, hc0m⟩ := get_some_mem a len hlt
      rw [get_append_within a b len hlt, hc0] at h4
      have h4' : isWordChar c0 = false := h4
      rw [digit_isWordChar c0 (ha c0 hc0m)] at h4'
      exact Bool.noConfusion h4'
    · by_cases heq : len = a.length
      · subst heq
        rw [take_append_self] at h2
        simp only [inNumberLang, Bool.and_eq_true, decide_eq_true_eq] at h2
        rw [takeWhile_all_self Char.isDigit a ha] at h2
        refine ⟨h2.1.1, h2.1.2, [], ?_, by simp⟩
        apply validTail_zero
        rw [get_append_self_length] at h4
        exact h4
      · have hgt : a.length < len := by omega
        have hjlen : len = a.length + (len - a.length) := by omega
        rw [hjlen, take_append_add] at h2
        have hbj : ∀ c, (b.take (len - a.length)).head? = some c
            → Char.isDigit c = false := by
          intro c hc
          rw [head_take b (len - a.length) (by omega)] at hc
          exact hb c hc
        have hsp := takeWhile_append_nondigit Char.isDigit a
          (b.take (len - a.length)) ha hbj
        simp only [inNumberLang] at h2
        rw [hsp.1, hsp.2] at h2
        simp only [Bool.and_eq_true, decide_eq_true_eq] at h2
        have hjb : len - a.length ≤ b.length := by omega
        refine ⟨h2.1.1, h2.1.2, b.take (len - a.length), ⟨?_, ?_, h2.2, ?_⟩, ?_⟩
        · rw [List.length_take, Nat.min_eq_left hjb]
        · rw [List.length_take, Nat.min_eq_left hjb]
          exact hjb
        · rw [List.length_take, Nat.min_eq_left hjb]
          rw [hjlen, get_append_add] at h4
          exact h4
        · rw [List.length_take, Nat.min_eq_left hjb]
          omega
  · rintro ⟨hpw, hA1, hA3, t, ⟨hpre, hlen, hnt, hbd⟩, hlv⟩
    refine ⟨⟨⟨⟨?_, ?_⟩, ?_⟩, hpw⟩, ?_⟩
    · rw [List.length_take, List.length_append]
      omega
    · omega
    · rw [hlv, take_append_add, hpre]
      have hbt : ∀ c, t.head? = some c → Char.isDigit c = false := by
        intro c hc
        rcases numTail_inv t hnt with h0 | ⟨d1, d2, d3, t', hsh, _⟩ | ⟨r, hsh, _⟩
        · rw [h0] at hc
          exact Option.noConfusion hc
        · rw [hsh] at hc
          obtain rfl := Option.some.inj hc
          decide
        · rw [hsh] at hc
          obtain rfl := Option.some.inj hc
          decide
      have hsp := takeWhile_append_nondigit Char.isDigit a t ha hbt
      simp only [inNumberLang]
      rw [hsp.1, hsp.2]
      simp [hA1, hA3, hnt]
    · rw [hlv, get_append_add]
      exact hbd

/-- Corollary: tokens at position 0 in terms of the leading digit run of the
string itself. -/
theorem numTokenAtZero_iff (pw : Bool) (l : List Char) (len : Nat) :
    numTokenAtP pw l 0 len = true ↔
      (pw = false ∧ 1 ≤ (l.takeWhile Char.isDigit).length
        ∧ (l.takeWhile Char.isDigit).length ≤ 3
        ∧ ∃ t, validTail (l.dropWhile Char.isDigit) t
            ∧ len = (l.takeWhile Char.isDigit).length + t.length) := by
  have hab := numTokenAtZero_ab pw (l.takeWhile Char.isDigit)
    (l.dropWhile Char.isDigit)
    (fun c hc => List.mem_takeWhile_imp hc)
    (fun c hc => dropWhile_head_not_digit l c hc) len
  rw [takeWhile_append_dropWhile_self] at hab
  exact hab

theorem take_run_tail (l t : List Char)
    (hpre : (l.dropWhile Char.isDigit).take t.length = t) :
    l.take ((l.takeWhile Char.isDigit).length + t.length)
      = l.takeWhile Char.isDigit ++ t := by
  have h := take_append_add (l.takeWhile Char.isDigit) (l.dropWhile Char.isDigit)
    t.length
  rw [takeWhile_append_dropWhile_self] at h
  rw [h, hpre]

/-! ### The scan loop finds exactly the leftmost-longest token -/

/-- Completeness of the scan: when `searchNumAux` fails there is no token. -/
theorem searchNumAux_none : ∀ (l : List Char) (pw : Bool),
    searchNumAux pw l = none → ∀ i len, numTokenAtP pw l i len = false := by
  intro l
  induction l with
  | nil => exact fun pw _ i len => numTokenAtP_nil pw i len
  | cons c rest ih =>
    intro pw h
    unfold searchNumAux at h
    by_cases hcond : (!pw && c.isDigit) = true
    · rw [if_pos hcond] at h
      cases htry : tryNumberAt (c :: rest) with
      | some v =>
        rw [htry] at h
        exact Option.noConfusion h
      | none =>
        rw [htry] at h
        intro i len
        cases i with
        | zero =>
          apply Bool.eq_false_iff.mpr
          intro hcon
          obtain ⟨hpw, hA1, hA3, t, hvt, hlen⟩ :=
            (numTokenAtZero_iff pw (c :: rest) len).mp hcon
          rw [tryNumberAt_eq _ hA1 hA3] at htry
          have hts : tailSearch ((c :: rest).dropWhile Char.isDigit) = none := by
            cases hts0 : tailSearch ((c :: rest).dropWhile Char.isDigit) with
            | none => rfl
            | some t0 =>
              rw [hts0] at htry
              exact Option.noConfusion htry
          exact (tailSearch_spec ((c :: rest).dropWhile Char.isDigit).length _
            le_rfl).2 hts t hvt
        | succ i0 =>
          rw [numTokenAtP_shift]
          exact ih (isWordChar c) h i0 len
    · rw [if_neg hcond] at h
      intro i len
      cases i with
      | zero =>
        apply Bool.eq_false_iff.mpr
        intro hcon
        obtain ⟨hpw, hA1, _⟩ := (numTokenAtZero_iff pw (c :: rest) len).mp hcon
        rw [hpw] at hcond
        simp only [Bool.not_false, Bool.true_and] at hcond
        have hcd : c.isDigit = false := Bool.eq_false_iff.mpr hcond
        rw [List.takeWhile_cons, if_neg (by simp [hcd])] at hA1
        simp at hA1
      | succ i0 =>
        rw [numTokenAtP_shift]
        exact ih (isWordChar c) h i0 len

/-- Soundness of the scan: a found value is the text of a token, maximal at
its own position and with no token at any earlier position. -/
theorem searchNumAux_some : ∀ (l : List Char) (pw : Bool) (v : List Char),
    searchNumAux pw l = some v →
    ∃ i len, numTokenAtP pw l i len = true ∧ v = (l.drop i).take len
      ∧ (∀ len2, numTokenAtP pw l i len2 = true → len2 ≤ len)
      ∧ (∀ j len2, j < i → numTokenAtP pw l j len2 = false) := by
  intro l
  induction l with
  | nil => exact fun pw v h => Option.noConfusion h
  | cons c rest ih =>
    intro pw v h
    unfold searchNumAux at h
    by_cases hcond : (!pw && c.isDigit) = true
    · rw [if_pos hcond] at h
      have hcond2 := hcond
      simp only [Bool.and_eq_true, Bool.not_eq_true'] at hcond2
      obtain ⟨hpw, hcd⟩ := hcond2
      cases htry : tryNumberAt (c :: rest) with
      | some w =>
        rw [htry] at h
        obtain rfl : w = v := Option.some.inj h
        have hA1 : 1 ≤ ((c :: rest).takeWhile Char.isDigit).length := by
          rw [List.takeWhile_cons, if_pos hcd]
          simp
        by_cases hA3 : ((c :: rest).takeWhile Char.isDigit).length ≤ 3
        · rw [tryNumberAt_eq _ hA1 hA3] at htry
          cases hts : tailSearch ((c :: rest).dropWhile Char.isDigit) with
          | none =>
            rw [hts] at htry
            exact Option.noConfusion htry
          | some t =>
            rw [hts] at htry
            have hv := Option.some.inj htry
            obtain ⟨hvalid, hmax⟩ :=
              (tailSearch_spec ((c :: rest).dropWhile Char.isDigit).length _
                le_rfl).1 t hts
            refine ⟨0, ((c :: rest).takeWhile Char.isDigit).length + t.length,
              ?_, ?_, ?_, ?_⟩
            · exact (numTokenAtZero_iff pw _ _).mpr ⟨hpw, hA1, hA3, t, hvalid, rfl⟩
            · rw [List.drop_zero, take_run_tail _ _ hvalid.1]
              exact hv.symm
            · intro len2 hcon2
              obtain ⟨_, _, _, t2, hvt2, hlen2⟩ :=
                (numTokenAtZero_iff pw _ _).mp hcon2
              have := hmax t2 hvt2
              omega
            · intro j len2 hj
              exact absurd hj (Nat.not_lt_zero j)
        · rw [tryNumberAt_big _ (by omega)] at htry
          exact Option.noConfusion htry
      | none =>
        rw [htry] at h
        obtain ⟨i, len, htok, hval, hmax, hmin⟩ := ih (isWordChar c) v h
        refine ⟨i + 1, len, ?_, ?_, ?_, ?_⟩
        · rw [numTokenAtP_shift]
          exact htok
        · exact hval
        · intro len2 h2
          rw [numTokenAtP_shift] at h2
          exact hmax len2 h2
        · intro j len2 hj
          cases j with
          | zero =>
            apply Bool.eq_false_iff.mpr
            intro hcon
            obtain ⟨_, hA1, hA3, t, hvt, _⟩ :=
              (numTokenAtZero_iff pw (c :: rest) len2).mp hcon
            rw [tryNumberAt_eq _ hA1 hA3] at htry
            have hts : tailSearch ((c :: rest).dropWhile Char.isDigit) = none := by
              cases hts0 : tailSearch ((c :: rest).dropWhile Char.isDigit) with
              | none => rfl
              | some t0 =>
                rw [hts0] at htry
                exact Option.noConfusion htry
            exact (tailSearch_spec ((c :: rest).dropWhile Char.isDigit).length _
              le_rfl).2 hts t hvt
          | succ j0 =>
            rw [numTokenAtP_shift]
            exact hmin j0 len2 (by omega)
    · rw [if_neg hcond] at h
      obtain ⟨i, len, htok, hval, hmax, hmin⟩ := ih (isWordChar c) v h
      refine ⟨i + 1, len, ?_, ?_, ?_, ?_⟩
      · rw [numTokenAtP_shift]
        exact htok
      · exact hval
      · intro len2 h2
        rw [numTokenAtP_shift] at h2
        exact hmax len2 h2
      · intro j len2 hj
        cases j with
        | zero =>
          apply Bool.eq_false_iff.mpr
          intro hcon
          obtain ⟨hpw, hA1, _⟩ := (numTokenAtZero_iff pw (c :: rest) len2).mp hcon
          rw [hpw] at hcond
          simp only [Bool.not_false, Bool.true_and] at hcond
          have hcd : c.isDigit = false := Bool.eq_false_iff.mpr hcond
          rw [List.takeWhile_cons, if_neg (by simp [hcd])] at hA1
          simp at hA1
        | succ j0 =>
          rw [numTokenAtP_shift]
          exact hmin j0 len2 (by omega)

/-! ### Assembly of the number-extraction claim -/

theorem contains_iff_mem_char (l : List Char) (c : Char) :
    l.contains c = true ↔ c ∈ l := by
  simp [List.elem_iff]

theorem extract_numbers_singleton (km : KeywordMatch) (m : ExtractionMatch)
    (h : NumberExtractor.extract_numbers [km] = .ok [m]) :
    NumberExtractor.extractOne km = .ok m := by
  cases hE : NumberExtractor.extractOne km with
  | error e =>
    unfold NumberExtractor.extract_numbers at h
    rw [hE] at h
    exact Except.noConfusion h
  | ok m0 =>
    unfold NumberExtractor.extract_numbers at h
    rw [hE] at h
    have h2 : ([m0] : List ExtractionMatch) = [m] := Except.ok.inj h
    obtain rfl : m0 = m := (List.cons.inj h2).1
    rfl

/-- Inversion of a successful `ExtractionMatch` construction: when the status
is rewritten to `not_found` only with value `'Not found'` (or never), the
record is exactly the given fields. -/
theorem mkExtractionMatch_inv (keyword value : String) (page_number : Nat)
    (line_number : Option Nat) (status : String) (warning : Option String)
    (m : ExtractionMatch)
    (h : mkExtractionMatch keyword value page_number line_number status warning
      = .ok m)
    (hnr : status = "not_found" → value = "Not found") :
    m = ⟨keyword, value, page_number, line_number, status, warning⟩ := by
  unfold mkExtractionMatch at h
  by_cases h1 : (status ≠ "found" && status ≠ "not_found" && status ≠ "ambiguous")
      = true
  · rw [if_pos h1] at h
    exact Except.noConfusion h
  · rw [if_neg h1] at h
    by_cases h2 : page_number < 1
    · rw [if_pos h2] at h
      exact Except.noConfusion h
    · rw [if_neg h2] at h
      by_cases h3 : (line_number == some 0) = true
      · rw [if_pos h3] at h
        exact Except.noConfusion h
      · rw [if_neg h3] at h
        by_cases h4 : (keyword = "" || pyStrip keyword = "") = true
        · rw [if_pos h4] at h
          exact Except.noConfusion h
        · rw [if_neg h4] at h
          by_cases h5 : (status = "not_found" && value ≠ "Not found" && value ≠ "")
              = true
          · simp only [Bool.and_eq_true, decide_eq_true_eq, ne_eq] at h5
            exact absurd (hnr h5.1.1) h5.1.2
          · rw [if_neg h5] at h
            exact (Except.ok.inj h).symm

/-- Claim C1: for every `KeywordMatch` run through
`NumberExtractor.extract_numbers`, the produced `ExtractionMatch` keeps the
keyword, page and line; when the keyword re-occurs in the line, the value is
the text of the first (leftmost, greedily longest) token of
`\d{1,3}(?:,\d{3})*(?:\.\d+)?` after the keyword occurrence, with word
boundaries on both sides; a token with a comma and no decimal point is
`ambiguous` (thousands-separator warning when the strict `^\d{1,3}(?:,\d{3})+$`
pattern matches, otherwise the unusual-format warning, the raw token kept as
value either way); a token with a decimal point or without a comma is `found`
with no warning; and with no keyword occurrence or no token at all the match
is `not_found` with value `'Not found'`. -/
theorem claim1_first_number_token (km : KeywordMatch) (m : ExtractionMatch)
    (h : NumberExtractor.extract_numbers [km] = .ok [m]) :
    m.keyword = km.keyword ∧ m.page_number = km.page_number
      ∧ m.line_number = some km.line_number
      ∧ (findKeywordIdx km.keyword.toList km.line_text.toList = none →
          m.value = "Not found" ∧ m.status = "not_found" ∧ m.warning = none)
      ∧ (∀ idx, findKeywordIdx km.keyword.toList km.line_text.toList = some idx →
          ((∀ i len, numTokenAt
              (km.line_text.toList.drop (idx + km.keyword.toList.length)) i len
              = false) →
            m.value = "Not found" ∧ m.status = "not_found" ∧ m.warning = none)
          ∧ (∀ i0 len0, firstNumToken
              (km.line_text.toList.drop (idx + km.keyword.toList.length)) i0 len0 →
            m.value = String.mk
              (((km.line_text.toList.drop
                (idx + km.keyword.toList.length)).drop i0).take len0)
            ∧ (',' ∈ m.value.toList ∧ '.' ∉ m.value.toList →
                m.status = "ambiguous"
                ∧ (strictThousands m.value = true →
                    m.warning = some (thousandsWarning m.value))
                ∧ (strictThousands m.value = false →
                    m.warning = some (unusualWarning m.value)))
            ∧ ('.' ∈ m.value.toList ∨ ',' ∉ m.value.toList →
                m.status = "found" ∧ m.warning = none))) := by
  have hE := extract_numbers_singleton km m h
  unfold NumberExtractor.extractOne at hE
  cases hf : findKeywordIdx km.keyword.toList km.line_text.toList with
  | none =>
    simp only [hf] at hE
    have hm := mkExtractionMatch_inv _ _ _ _ _ _ _ hE (fun _ => rfl)
    subst hm
    refine ⟨rfl, rfl, rfl, fun _ => ⟨rfl, rfl, rfl⟩, ?_⟩
    intro idx hidx
    exact Option.noConfusion hidx
  | some idx =>
    simp only [hf] at hE
    cases hsn : searchNumber
        (km.line_text.toList.drop (idx + km.keyword.toList.length)) with
    | none =>
      simp only [hsn] at hE
      have hm := mkExtractionMatch_inv _ _ _ _ _ _ _ hE (fun _ => rfl)
      subst hm
      refine ⟨rfl, rfl, rfl, ?_, ?_⟩
      · intro h0
        exact Option.noConfusion h0
      · intro idx' hidx'
        obtain rfl : idx = idx' := Option.some.inj hidx'
        constructor
        · intro _
          exact ⟨rfl, rfl, rfl⟩
        · intro i0 len0 hft
          have hfalse := searchNumAux_none _ false hsn i0 len0
          have h1 : numTokenAtP false
              (km.line_text.toList.drop (idx + km.keyword.toList.length)) i0 len0
              = true := hft.1
          rw [hfalse] at h1
          exact Bool.noConfusion h1
    | some v =>
      simp only [hsn] at hE
      have hnr : (classifyValue (String.mk v)).1 = "not_found"
          → String.mk v = "Not found" := by
        intro hnf
        rcases classifyValue_status (String.mk v) with h' | h' <;>
          (rw [h'] at hnf; exact absurd hnf (by decide))
      have hm := mkExtractionMatch_inv _ _ _ _ _ _ _ hE hnr
      subst hm
      refine ⟨rfl, rfl, rfl, ?_, ?_⟩
      · intro h0
        exact Option.noConfusion h0
      · intro idx' hidx'
        obtain rfl : idx = idx' := Option.some.inj hidx'
        constructor
        · intro hnone
          obtain ⟨i, len, htok, _, _, _⟩ := searchNumAux_some _ false v hsn
          have h1 : numTokenAt
              (km.line_text.toList.drop (idx + km.keyword.toList.length)) i len
              = true := htok
          rw [hnone i len] at h1
          exact Bool.noConfusion h1
        · intro i0 len0 hft
          obtain ⟨i, len, htok, hval, hmax, hmin⟩ := searchNumAux_some _ false v hsn
          obtain ⟨hft1, hft2, hft3⟩ := hft
          have hii : i = i0 := by
            rcases Nat.lt_trichotomy i i0 with hlt | he | hgt
            · have h1 := hft3 i len hlt
              have h2 : numTokenAtP false
                  (km.line_text.toList.drop (idx + km.keyword.toList.length)) i len
                  = false := h1
              rw [h2] at htok
              exact Bool.noConfusion htok
            · exact he
            · have h1 := hmin i0 len0 hgt
              have h2 : numTokenAtP false
                  (km.line_text.toList.drop (idx + km.keyword.toList.length)) i0 len0
                  = true := hft1
              rw [h1] at h2
              exact Bool.noConfusion h2
          subst hii
          have hleq : len = len0 := by
            have ha := hmax len0 hft1
            have hb := hft2 len htok
            omega
          subst hleq
          refine ⟨congrArg String.mk hval, ?_, ?_⟩
          · rintro ⟨hc, hd⟩
            have hcond : ((String.mk v).toList.contains ','
                && !(String.mk v).toList.contains '.') = true := by
              simp only [Bool.and_eq_true, Bool.not_eq_true']
              constructor
              · exact (contains_iff_mem_char _ _).mpr hc
              · apply Bool.eq_false_iff.mpr
                intro hcon
                exact hd ((contains_iff_mem_char _ _).mp hcon)
            show (classifyValue (String.mk v)).1 = "ambiguous" ∧ _
            unfold classifyValue
            rw [if_pos hcond]
            cases hstv : strictThousands (String.mk v) with
            | true => simp
            | false => simp
          · intro hor
            have hcond : ((String.mk v).toList.contains ','
                && !(String.mk v).toList.contains '.') = false := by
              rcases hor with hd | hc
              · have hh : (String.mk v).toList.contains '.' = true :=
                  (contains_iff_mem_char _ _).mpr hd
                rw [hh]
                simp
              · have hh : (String.mk v).toList.contains ',' = false := by
                  apply Bool.eq_false_iff.mpr
                  intro hcon
                  exact hc ((contains_iff_mem_char _ _).mp hcon)
                rw [hh]
                simp
            show (classifyValue (String.mk v)).1 = "found"
              ∧ (classifyValue (String.mk v)).2 = none
            unfold classifyValue
            rw [if_neg (by rw [hcond]; exact fun hcon => Bool.noConfusion hcon)]
            exact ⟨rfl, rfl⟩

/-- Witness for C1 at the concrete input kmSalary (line
`"Salary 1,234 USD"`, keyword `"Salary"`): the keyword is found at index 0,
the first token of the text after it is `"1,234"` (position 1, length 5), and
the claim theorem yields value `"1,234"`, status `ambiguous` and the
thousands-separator warning. -/
theorem claim1_witness :
    (extractOneData kmSalary).value = "1,234"
    ∧ (extractOneData kmSalary).status = "ambiguous"
    ∧ (extractOneData kmSalary).warning = some (thousandsWarning "1,234") := by
  have hext : NumberExtractor.extract_numbers [kmSalary]
      = .ok [extractOneData kmSalary] := by rfl
  have hthm := claim1_first_number_token kmSalary (extractOneData kmSalary) hext
  have hidx := hthm.2.2.2.2 0 (by decide)
  have hft : firstNumToken (kmSalary.line_text.toList.drop
      (0 + kmSalary.keyword.toList.length)) 1 5 := by
    refine ⟨by decide, ?_, ?_⟩
    · intro len2 h2
      by_cases hb : len2 < 11
      · exact (by decide : ∀ l2, l2 < 11 →
          numTokenAt (kmSalary.line_text.toList.drop
            (0 + kmSalary.keyword.toList.length)) 1 l2 = true → l2 ≤ 5) len2 hb h2
      · have hle := numTokenAtP_len_le false _ 1 len2 h2
        have hlen : (kmSalary.line_text.toList.drop
            (0 + kmSalary.keyword.toList.length)).length = 10 := by decide
        rw [hlen] at hle
        omega
    · intro j len2 hj
      have hj0 : j = 0 := by omega
      subst hj0
      by_cases hb : len2 < 11
      · exact (by decide : ∀ l2, l2 < 11 →
          numTokenAt (kmSalary.line_text.toList.drop
            (0 + kmSalary.keyword.toList.length)) 0 l2 = false) len2 hb
      · apply Bool.eq_false_iff.mpr
        intro hcon
        have hle := numTokenAtP_len_le false _ 0 len2 hcon
        have hlen : (kmSalary.line_text.toList.drop
            (0 + kmSalary.keyword.toList.length)).length = 10 := by decide
        rw [hlen] at hle
        omega
  obtain ⟨hval, hcls, _⟩ := hidx.2 1 5 hft
  refine ⟨?_, ?_, ?_⟩
  · rw [hval]
    decide
  · exact (hcls ⟨by decide, by decide⟩).1
  · have hw := (hcls ⟨by decide, by decide⟩).2.1 (by decide)
    rw [hw]
    decide

end TextExtractor
